import Mathlib

/-!
Verification of the adaptive-extraction core of the `smart_shopping`
repository.  The Python sources are shallowly embedded: text is modelled
over `List Char` / `String` (ASCII model of `str.lower` / `str.strip`),
Python floats are modelled as exact rationals `ℚ`, fallible operations
return `Option`, and the strategy store is explicit state passed to each
operation.  External capabilities (the `hashlib` digest, `urllib.parse.urljoin`,
compiled `re` patterns applied by the extractor, and the in-page JS walker)
are parameters of the functions that consume them.
-/

namespace SmartShopping

/-- ASCII whitespace set recognised by Python `str.strip()` / `\s`. -/
def isWs (c : Char) : Bool :=
  c == ' ' || c == '\t' || c == '\n' || c == '\x0d' || c == '\x0b' || c == '\x0c'

/-- Model of Python `str.strip()` on the character list. -/
def stripChars (l : List Char) : List Char :=
  ((l.dropWhile isWs).reverse.dropWhile isWs).reverse

/-- Model of Python `str.strip()`. -/
def pyStrip (s : String) : String :=
  ⟨stripChars s.data⟩

/-- ASCII model of Python `str.lower()` on one character. -/
def lowerChar (c : Char) : Char :=
  if 'A' ≤ c && c ≤ 'Z' then Char.ofNat (c.toNat + 32) else c

/-- ASCII model of Python `str.lower()`. -/
def pyLower (s : String) : String :=
  ⟨s.data.map lowerChar⟩

/-- ASCII model of Python `str.upper()` on one character. -/
def upperChar (c : Char) : Char :=
  if 'a' ≤ c && c ≤ 'z' then Char.ofNat (c.toNat - 32) else c

/-- ASCII model of Python `str.upper()`. -/
def pyUpper (s : String) : String :=
  ⟨s.data.map upperChar⟩

/-- Characters kept by `re.sub(r"[^\d.,]", "", ...)` in `parse_price`. -/
def isPriceChar (c : Char) : Bool :=
  c.isDigit || c == '.' || c == ','

/-- Index of the last occurrence of `c` (Python `str.rindex`), if any. -/
def posLast (c : Char) : List Char → Option Nat
  | [] => none
  | a :: r =>
    match posLast c r with
    | some i => some (i + 1)
    | none => if a == c then some 0 else none

/-- The suffix after the last occurrence of `c` (Python `split(c)[-1]`
when `c` occurs), if `c` occurs at all. -/
def afterLast (c : Char) : List Char → Option (List Char)
  | [] => none
  | a :: r =>
    match afterLast c r with
    | some s => some s
    | none => if a == c then some r else none

/-- Remove every occurrence of `c` (Python `str.replace(c, "")`). -/
def removeAll (c : Char) (l : List Char) : List Char :=
  l.filter (fun x => x != c)

/-- Replace every occurrence of `c` by `d` (Python `str.replace(c, d)`). -/
def replaceAll (c d : Char) (l : List Char) : List Char :=
  l.map (fun x => if x == c then d else x)

/-- Numeric value of a digit list, most significant first. -/
def digitsVal (l : List Char) : Nat :=
  l.foldl (fun n c => 10 * n + (c.toNat - 48)) 0

/-- Model of Python `float(s)` restricted to strings made of digits,
dots and commas (all that can reach it inside `parse_price`): it succeeds
iff the string has no comma, at most one dot, and at least one digit. -/
def floatParse (l : List Char) : Option ℚ :=
  if l.any (fun c => !(c.isDigit || c == '.')) then none
  else if 2 ≤ l.count '.' then none
  else if !(l.any Char.isDigit) then none
  else
    some ((digitsVal (l.takeWhile (fun c => c != '.')) : ℚ) +
      (digitsVal ((afterLast '.' l).getD []) : ℚ) /
        (10 : ℚ) ^ ((afterLast '.' l).getD []).length)

/-- The separator-normalisation block of `parse_price`: decides which of
`,` and `.` is the decimal separator and rewrites the cleaned text to a
dot-decimal form. -/
def priceSepNormalize (cleaned : List Char) : List Char :=
  if cleaned.contains ',' && cleaned.contains '.' then
    match posLast ',' cleaned, posLast '.' cleaned with
    | some i, some j =>
      if j < i then
        -- European format 1.299,99: drop dots, comma becomes dot
        replaceAll ',' '.' (removeAll '.' cleaned)
      else
        -- US format 1,299.99: drop commas
        removeAll ',' cleaned
    | _, _ => cleaned
  else if cleaned.contains ',' then
    match afterLast ',' cleaned with
    | some tail =>
      if tail.length == 2 then replaceAll ',' '.' cleaned
      else removeAll ',' cleaned
    | none => cleaned
  else cleaned

/-- Embedding of `parse_price` (src/mcp_servers/web_scraper_mcp/scraper.py)
on the character list of the input. -/
def parsePriceChars (l : List Char) : Option ℚ :=
  if l.isEmpty then none
  else if ((stripChars l).filter isPriceChar).isEmpty then none
  else floatParse (priceSepNormalize ((stripChars l).filter isPriceChar))

/-- Embedding of `parse_price`. -/
def parsePrice (s : String) : Option ℚ :=
  parsePriceChars s.data

/-! ### Shared data model (src/shared/models.py)

Python floats are rationals, `dict[str, str]` is an insertion-ordered
association list. -/

/-- Embedding of the `Seller` pydantic model. -/
structure Seller where
  name : String
  price : Option ℚ := none
  currency : String := "USD"
  url : Option String := none
  phone : Option String := none
  email : Option String := none
  rating : Option ℚ := none
deriving DecidableEq

/-- Embedding of the `ProductResult` pydantic model. -/
structure ProductResult where
  name : String
  model_id : Option String := none
  brand : Option String := none
  product_type : Option String := none
  category : Option String := none
  criteria : List (String × String) := []
  sellers : List Seller := []
  image_url : Option String := none
deriving DecidableEq

/-! ### Domain extraction (processor.py `_extract_domain`) -/

/-- Locate the first `"//"` and return what follows. -/
def afterDoubleSlash : List Char → Option (List Char)
  | [] => none
  | '/' :: '/' :: r => some r
  | _ :: r => afterDoubleSlash r

/-- Modelled behaviour of `urllib.parse.urlparse(url).hostname or ""` for
the URL shapes this pipeline produces (absolute `scheme://netloc/...`
URLs, or strings without a netloc which have no hostname): the netloc is
the segment between the first `"//"` and the next `/`, `?` or `#`; the
hostname drops userinfo (after the last `@`) and the port and is
lowercased. -/
def hostnameOf (url : String) : String :=
  match afterDoubleSlash url.data with
  | none => ""
  | some r =>
    let netloc := r.takeWhile (fun c => !(c == '/' || c == '?' || c == '#'))
    let host := ((afterLast '@' netloc).getD netloc).takeWhile (fun c => c != ':')
    ⟨host.map lowerChar⟩

/-- Character-list test for `str.startswith`. -/
def listHasPre : List Char → List Char → Bool
  | [], _ => true
  | _ :: _, [] => false
  | p :: ps, c :: cs => p == c && listHasPre ps cs

/-- Embedding of `_extract_domain`: hostname with a leading `www.` removed,
`""` for an empty URL. -/
def extractDomain (url : String) : String :=
  if url.data.isEmpty then ""
  else
    if listHasPre "www.".data (hostnameOf url).data then
      ⟨(hostnameOf url).data.drop 4⟩
    else hostnameOf url

/-! ### Name normalisation and fuzzy matching (processor.py) -/

/-- ASCII model of the regex class `\w`. -/
def wordChar (c : Char) : Bool :=
  c.isAlphanum || c == '_'

/-- Model of `re.sub(r"\s+", " ", text)`: each whitespace run becomes one
space.  The flag records whether the previous character was whitespace. -/
def collapseWsGo : Bool → List Char → List Char
  | _, [] => []
  | prevWs, c :: r =>
    if isWs c then
      if prevWs then collapseWsGo true r
      else ' ' :: collapseWsGo true r
    else c :: collapseWsGo false r

/-- Embedding of `_normalize_name`: lowercase, strip, collapse whitespace,
drop characters outside `[\w\s]`, strip again. -/
def normalizeName (s : String) : String :=
  ⟨stripChars ((collapseWsGo false
      (stripChars (s.data.map lowerChar))).filter
        (fun c => wordChar c || isWs c))⟩

/-- Model of Python `str.split()` (split on whitespace runs, no empties). -/
def splitWsGo (cur : List Char) : List Char → List (List Char)
  | [] => if cur.isEmpty then [] else [cur.reverse]
  | c :: r =>
    if isWs c then
      if cur.isEmpty then splitWsGo [] r
      else cur.reverse :: splitWsGo [] r
    else splitWsGo (c :: cur) r

/-- Token set of a normalised product name (`set(norm.split())`). -/
def nameTokens (s : String) : Finset String :=
  ((splitWsGo [] (normalizeName s).data).map (fun l => (⟨l⟩ : String))).toFinset

/-- Embedding of `_names_match`: equal normalised names match outright;
otherwise token sets are compared, requiring the shorter set to have at
least 2 tokens and an overlap of at least 60% of the shorter set. -/
def namesMatch (a b : String) : Bool :=
  if normalizeName a = normalizeName b then true
  else
    let tokensA := nameTokens a
    let tokensB := nameTokens b
    if tokensA = ∅ || tokensB = ∅ then false
    else
      let shorter := if tokensA.card ≤ tokensB.card then tokensA else tokensB
      let longer := if tokensA.card ≤ tokensB.card then tokensB else tokensA
      if shorter.card < 2 then false
      else decide ((0.6 : ℚ) ≤ ((shorter ∩ longer).card : ℚ) / (shorter.card : ℚ))

/-! ### Aggregation (processor.py `aggregate_sellers`, `_merge_group`) -/

/-- A lowercase-hex character (regex class `[0-9a-f]`). -/
def isHexLower (c : Char) : Bool :=
  c.isDigit || ('a' ≤ c && c ≤ 'f')

/-- Model of `re.fullmatch(r"[0-9a-f]{12}", mid)`: the shape of the synthesized
brand+name hash placeholder. -/
def isHashId (s : String) : Bool :=
  s.length == 12 && s.data.all isHexLower

/-- A record participates in exact-id grouping iff its `model_id` is
non-empty (truthy) and not hash-shaped. -/
def usableId (p : ProductResult) : Bool :=
  !(p.model_id.getD "").data.isEmpty && !isHashId (p.model_id.getD "")

/-- Append `p` to the id-group keyed `mid`, keeping first-insertion key
order (Python `defaultdict` iteration order). -/
def addIdGroup (mid : String) (p : ProductResult) :
    List (String × List ProductResult) → List (String × List ProductResult)
  | [] => [(mid, [p])]
  | (k, g) :: rest =>
    if k = mid then (k, g ++ [p]) :: rest
    else (k, g) :: addIdGroup mid p rest

/-- First id group stored under a given key (Python dict lookup). -/
def lookupGroup (mid : String) :
    List (String × List ProductResult) → Option (List ProductResult)
  | [] => none
  | (k, g) :: rest => if k = mid then some g else lookupGroup mid rest

/-- One step of the first grouping pass: a record with a usable id goes
into its id group, any other record is appended to the ungrouped rest. -/
def idStep (acc : List (String × List ProductResult) × List ProductResult)
    (p : ProductResult) :
    List (String × List ProductResult) × List ProductResult :=
  if usableId p then (addIdGroup (p.model_id.getD "") p acc.1, acc.2)
  else (acc.1, acc.2 ++ [p])

/-- First grouping pass of `aggregate_sellers`: id-keyed groups for
records with a usable id, the rest in input order. -/
def idPartition (results : List ProductResult) :
    List (String × List ProductResult) × List ProductResult :=
  results.foldl idStep ([], [])

/-- Greedy fuzzy grouping step: `p` joins the first group whose *first*
member's name matches, else starts a new group.  A group is its first
member paired with the later arrivals. -/
def addFuzzy (p : ProductResult) :
    List (ProductResult × List ProductResult) →
      List (ProductResult × List ProductResult)
  | [] => [(p, [])]
  | (h, t) :: gs =>
    if namesMatch p.name h.name then (h, t ++ [p]) :: gs
    else (h, t) :: addFuzzy p gs

/-- Second grouping pass of `aggregate_sellers` over the ungrouped rest. -/
def fuzzyGroups (l : List ProductResult) :
    List (ProductResult × List ProductResult) :=
  l.foldl (fun gs p => addFuzzy p gs) []

/-- Seller dedup key: `(domain-of-url, price)`. -/
def sellerKey (s : Seller) : String × Option ℚ :=
  (extractDomain (s.url.getD ""), s.price)

/-- Keep the first occurrence of each key (`seen_sellers` set). -/
def dedupByKeyAux {α κ : Type} [DecidableEq κ] (key : α → κ) :
    List κ → List α → List α
  | _, [] => []
  | seen, a :: l =>
    if key a ∈ seen then dedupByKeyAux key seen l
    else a :: dedupByKeyAux key (key a :: seen) l

/-- Deduplicate a list by a key, keeping first occurrences. -/
def dedupByKey {α κ : Type} [DecidableEq κ] (key : α → κ) (l : List α) :
    List α :=
  dedupByKeyAux key [] l

/-- Python sort key `(s.price is None, s.price or 0)` for sellers. -/
def sellerSortKey (s : Seller) : Bool × ℚ :=
  (s.price.isNone, s.price.getD 0)

/-- Lexicographic order on `(Bool, ℚ)` pairs (Python tuple comparison,
`False < True`). -/
def boolQLe (x y : Bool × ℚ) : Prop :=
  (x.1 = false ∧ y.1 = true) ∨ (x.1 = y.1 ∧ x.2 ≤ y.2)

instance : DecidableRel boolQLe := fun x y => by
  unfold boolQLe
  exact inferInstance

/-- Seller ordering used by `_merge_group` (price ascending, null last). -/
def sellerLe (s t : Seller) : Prop :=
  boolQLe (sellerSortKey s) (sellerSortKey t)

instance : DecidableRel sellerLe := fun s t => by
  unfold sellerLe
  exact inferInstance

/-- Python truthiness of an optional string (`None` and `""` are falsy). -/
def optFalsy (o : Option String) : Bool :=
  match o with
  | none => true
  | some s => s.data.isEmpty

/-- Loop `best = base; for v in vs: if not best and v: best = v`. -/
def pickFirstTruthy (base : Option String) (vs : List (Option String)) :
    Option String :=
  vs.foldl (fun acc v => if optFalsy acc && !optFalsy v then v else acc) base

/-- Criteria merge of `_merge_group`: start from the base's dict and add
only keys not yet present whose value is truthy. -/
def criteriaMerge (base : List (String × String))
    (products : List ProductResult) : List (String × String) :=
  products.foldl
    (fun acc p =>
      p.criteria.foldl
        (fun acc2 kv =>
          if acc2.any (fun kv2 => kv2.1 == kv.1) || kv.2.data.isEmpty then acc2
          else acc2 ++ [kv])
        acc)
    base

/-- Embedding of `_merge_group`.  A single-member group is returned as is;
otherwise sellers of all members are deduplicated by `sellerKey` and
sorted by `sellerLe`, and brand/image/criteria are filled first-wins. -/
def mergeGroup : List ProductResult → ProductResult
  | [] => { name := "" }  -- unreachable: the aggregator only builds nonempty groups
  | [p] => p
  | base :: rest =>
    { name := base.name
      model_id := base.model_id
      brand := pickFirstTruthy base.brand ((base :: rest).map (·.brand))
      product_type := base.product_type
      category := base.category
      criteria := criteriaMerge base.criteria (base :: rest)
      sellers :=
        List.insertionSort sellerLe
          (dedupByKey sellerKey ((base :: rest).flatMap (·.sellers)))
      image_url := pickFirstTruthy base.image_url ((base :: rest).map (·.image_url)) }

/-- Embedding of `aggregate_sellers`: id groups (first pass), fuzzy groups
(second pass), each merged into one record. -/
def aggregateSellers (results : List ProductResult) : List ProductResult :=
  if results.isEmpty then []
  else
    ((idPartition results).1.map (·.2) ++
        (fuzzyGroups (idPartition results).2).map (fun g => g.1 :: g.2)).map
      mergeGroup

/-! ### Formatting (processor.py `format_results`) -/

/-- The first non-null seller price (`_best_price` scan). -/
def firstPriced : List Seller → Option ℚ
  | [] => none
  | s :: r =>
    match s.price with
    | some p => some p
    | none => firstPriced r

/-- Embedding of `_best_price`: `(has_no_price, first non-null price)`. -/
def bestPriceKey (p : ProductResult) : Bool × ℚ :=
  match firstPriced p.sellers with
  | some q => (false, q)
  | none => (true, 0)

/-- Embedding of `_best_price_value`: the minimum non-null seller price. -/
def bestPriceValue (p : ProductResult) : Option ℚ :=
  match p.sellers.filterMap (·.price) with
  | [] => none
  | x :: r => some (r.foldl min x)

/-- Embedding of `_best_currency`. -/
def bestCurrency (p : ProductResult) : String :=
  match p.sellers.find? (fun s => s.price.isSome) with
  | some s => s.currency
  | none => "USD"

/-- Record order for `price_comparison` / `single_product` formatting. -/
def productPriceLe (p q : ProductResult) : Prop :=
  boolQLe (bestPriceKey p) (bestPriceKey q)

instance : DecidableRel productPriceLe := fun p q => by
  unfold productPriceLe
  exact inferInstance

/-- Record order for `multi_product` formatting:
`(category or "", brand or "", _best_price)` tuple comparison. -/
def multiLe (p q : ProductResult) : Prop :=
  p.category.getD "" < q.category.getD ""
  ∨ (p.category.getD "" = q.category.getD ""
      ∧ (p.brand.getD "" < q.brand.getD ""
        ∨ (p.brand.getD "" = q.brand.getD ""
            ∧ boolQLe (bestPriceKey p) (bestPriceKey q))))

instance : DecidableRel multiLe := fun p q => by
  unfold multiLe
  exact inferInstance

/-- Seller display domain: URL domain, falling back to the seller name. -/
def sellerDomainOrName (s : Seller) : String :=
  if (extractDomain (s.url.getD "")).data.isEmpty then s.name
  else extractDomain (s.url.getD "")

/-- Distinct truthy seller domains across all results. -/
def allDomains (results : List ProductResult) : Finset String :=
  ((results.flatMap (fun p => p.sellers.map sellerDomainOrName)).filter
    (fun d => !d.data.isEmpty)).toFinset

/-- Distinct truthy seller domains of one record. -/
def sellerDomains (p : ProductResult) : Finset String :=
  ((p.sellers.map sellerDomainOrName).filter (fun d => !d.data.isEmpty)).toFinset

/-- One formatted entry of `format_results`. -/
structure FormattedProduct where
  product : ProductResult
  source_count : Nat
  best_price : Option ℚ
  best_currency : String
deriving DecidableEq

/-- The dict returned by `format_results`. -/
structure FormatOutput where
  products : List FormattedProduct
  total_count : Nat
  displayed_count : Nat
  source_count : Nat
  format_type : String
deriving DecidableEq

/-- The capped and mode-sorted record list of `format_results` (the list
is capped *before* sorting, and Python `list.sort` is stable, as is
`insertionSort` with a non-strict total preorder). -/
def sortCapped (results : List ProductResult) (ft : String) :
    List ProductResult :=
  if ft = "price_comparison" then
    List.insertionSort productPriceLe (results.take 20)
  else if ft = "multi_product" then
    List.insertionSort multiLe (results.take 20)
  else
    List.insertionSort productPriceLe (results.take 20)

/-- Embedding of `format_results`. -/
def formatResults (results : List ProductResult)
    (ft : String := "single_product") : FormatOutput :=
  { products :=
      (sortCapped results ft).map (fun p =>
        { product := p
          source_count := (sellerDomains p).card
          best_price := bestPriceValue p
          best_currency := bestCurrency p })
    total_count := results.length
    displayed_count := (sortCapped results ft).length
    source_count := (allDomains results).card
    format_type := ft }

/-! ### Scraping strategy and its persisted store
(src/mcp_servers/web_scraper_mcp/strategy.py, db_cache.py,
src/backend/db/models.py)

Time is a rational number of days; the database table is an association
list keyed by domain (the `domain` column is unique).  The strategy is
stored directly rather than through its JSON serialisation, whose
round-trip is out of scope here. -/

/-- Embedding of the `ScrapingStrategy` dataclass. -/
structure ScrapingStrategy where
  product_container : String
  name_selector : String := ""
  price_selector : String := ""
  image_selector : String := ""
  url_selector : String := ""
  model_selector : String := ""
  brand_selector : String := ""
  mpn_selector : String := ""
  currency_hint : String := ""
  version : Nat := 1
  discovery_method : String := "css_candidates"
  criteria_selectors : List (String × String) := []
deriving DecidableEq

/-- Embedding of a `ScrapingInstruction` row. -/
structure InstructionRow where
  strategy : ScrapingStrategy
  success_rate : ℚ
  created_at : ℚ
  updated_at : ℚ
deriving DecidableEq

/-- The persisted store, keyed by domain. -/
abbrev StrategyStore := List (String × InstructionRow)

/-- Constant `_EMA_ALPHA`. -/
def EMA_ALPHA : ℚ := 0.3

/-- Query `select ... where domain == d` (the domain column is unique, so the
first hit is the row). -/
def lookupStore (domain : String) : StrategyStore → Option InstructionRow
  | [] => none
  | (d, r) :: rest => if d = domain then some r else lookupStore domain rest

/-- Replace the row stored under `domain` (no-op when absent). -/
def setRow (domain : String) (r : InstructionRow) :
    StrategyStore → StrategyStore
  | [] => []
  | (d, r0) :: rest =>
    if d = domain then (d, r) :: rest else (d, r0) :: setRow domain r rest

/-- Embedding of `get_cached_strategy`: `none` when no row exists, the
row is older than the 30-day TTL, or its success rate is below 0.5. -/
def getCachedStrategy (domain : String) (now : ℚ) (store : StrategyStore) :
    Option ScrapingStrategy :=
  match lookupStore domain store with
  | none => none
  | some r =>
    if now - r.created_at > 30 then none
    else if r.success_rate < 0.5 then none
    else some r.strategy

/-- Embedding of `save_strategy`: update path resets `success_rate` to 1.0
and refreshes `updated_at` only; insert path creates the row with both
timestamps at `now` (the column defaults). -/
def saveStrategy (domain : String) (strategy : ScrapingStrategy) (now : ℚ)
    (store : StrategyStore) : StrategyStore :=
  match lookupStore domain store with
  | some r =>
    setRow domain
      { r with strategy := strategy, success_rate := 1, updated_at := now }
      store
  | none =>
    store ++ [(domain,
      { strategy := strategy, success_rate := 1,
        created_at := now, updated_at := now })]

/-- Embedding of `update_success_rate`: EMA with α = 0.3; no-op when the
row is absent. -/
def updateSuccessRate (domain : String) (success : Bool) (now : ℚ)
    (store : StrategyStore) : StrategyStore :=
  match lookupStore domain store with
  | none => store
  | some r =>
    setRow domain
      { r with
          success_rate :=
            EMA_ALPHA * (if success then 1 else 0)
              + (1 - EMA_ALPHA) * r.success_rate
          updated_at := now }
      store

/-! ### Specification-pattern builder
(src/mcp_servers/web_scraper_mcp/spec_patterns.py)

Regex patterns are carried as their template text plus capture-group
index; `re.compile` and matching semantics are outside this model, which
the claims about the builder do not need. -/

/-- Table `_UNIT_PATTERN_TEMPLATES`: unit → (regex template, group index). -/
def UNIT_PATTERN_TEMPLATES : List (String × String × Nat) :=
  [("dB", ("(\\d+)\\s*db\\b", 0)),
   ("L", ("(\\d+)\\s*(?:liters?|litres?|L)\\b", 0)),
   ("kg", ("(\\d+(?:\\.\\d+)?)\\s*kg\\b", 0)),
   ("g", ("(\\d+)\\s*g\\b", 0)),
   ("W", ("(\\d+)\\s*W\\b", 0)),
   ("BTU", ("(\\d[\\d,]*)\\s*BTU\\b", 0)),
   ("RPM", ("(\\d+)\\s*RPM\\b", 0)),
   ("Hz", ("(\\d+)\\s*Hz\\b", 0)),
   ("inches", ("(\\d{2,3})\\s*[\"\\u2033]\\s*|(\\d{2,3})\\s*inch", 0)),
   ("GB", ("(\\d+)\\s*GB\\b", 0)),
   ("TB", ("(\\d+)\\s*TB\\b", 0)),
   ("mm", ("(\\d+)\\s*mm\\b", 0)),
   ("cm", ("(\\d+)\\s*cm\\b", 0)),
   ("hours", ("(\\d+)\\s*(?:hours?|hrs?)\\b", 0)),
   ("min", ("(\\d+)\\s*(?:minutes?|mins?)\\b", 0)),
   ("m²", ("(\\d+)\\s*m[²2]\\b", 0)),
   ("years", ("(\\d+)\\s*(?:years?|yrs?)\\b", 0)),
   ("°C", ("(\\d+)\\s*°?C\\b", 0)),
   ("kW", ("(\\d[\\d.]*)\\s*kW\\b", 0))]

/-- Table `_SPECIAL_PATTERNS`: irregular criteria that cannot be derived from a
unit alone. -/
def SPECIAL_PATTERNS : List (String × String × Nat) :=
  [("resolution", ("\\b(4K|8K|UHD|Full\\s*HD|FHD|QHD|1080p|2160p)\\b", 0)),
   ("panel_type", ("\\b(OLED|QLED|Mini.?LED|Neo\\s*QLED|LED|IPS|VA|TN)\\b", 0)),
   ("energy_rating", ("\\b(A\\+{0,3}|[A-G])\\s*energy\\b", 1)),
   ("processor",
     ("\\b(i[3579][-\\s]?\\d{4,5}\\w*|Ryzen\\s*\\d\\s*\\d{4}\\w*|M[1-4]\\s*(?:Pro|Max|Ultra)?)\\b",
      0)),
   ("ram", ("(\\d+)\\s*GB\\s*RAM\\b", 0)),
   ("storage", ("(\\d+)\\s*(?:GB|TB)\\s*(?:SSD|HDD|storage)\\b", 0)),
   ("noise_cancelling",
     ("\\b(ANC|active\\s*noise\\s*cancell?(?:ing|ation))\\b", 0)),
   ("frost_free", ("\\bfrost[\\s-]*free\\b", 0)),
   ("inverter", ("\\binverter\\b", 0)),
   ("filtration", ("\\b(HEPA|H1[0-4])\\b", 0))]

/-- Table `_DEFAULT_CRITERIA` as (key, unit) pairs. -/
def DEFAULT_CRITERIA : List (String × String) :=
  [("noise_level", "dB"), ("capacity", "L"), ("weight", "kg"),
   ("power", "W"), ("cooling_capacity", "BTU"), ("spin_speed", "RPM"),
   ("screen_size", "inches"), ("resolution", ""), ("panel_type", ""),
   ("refresh_rate", "Hz"), ("energy_rating", ""), ("processor", ""),
   ("ram", "GB"), ("storage", ""), ("noise_cancelling", ""),
   ("frost_free", ""), ("inverter", ""), ("filtration", "")]

/-- Python dict lookup in one of the two tables. -/
def lookupTable (k : String) :
    List (String × String × Nat) → Option (String × Nat)
  | [] => none
  | (key, t) :: rest => if key = k then some t else lookupTable k rest

/-- The builder loop of `build_extraction_patterns` with its `seen_keys`
set; emits `(template, key, group_index)` triples. -/
def buildGo (seen : List String) :
    List (String × String) → List (String × String × Nat)
  | [] => []
  | (key, unit) :: rest =>
    if key ∈ seen ∨ key = "price" then buildGo seen rest
    else
      match lookupTable key SPECIAL_PATTERNS with
      | some (tmpl, gi) => (tmpl, key, gi) :: buildGo (key :: seen) rest
      | none =>
        if unit ≠ "" then
          match lookupTable unit UNIT_PATTERN_TEMPLATES with
          | some (tmpl, gi) => (tmpl, key, gi) :: buildGo (key :: seen) rest
          | none => buildGo (key :: seen) rest
        else buildGo (key :: seen) rest

/-- Embedding of `build_extraction_patterns`: criteria given as
(key, declared unit) pairs, `none` selecting the default set. -/
def buildExtractionPatterns (criteria : Option (List (String × String))) :
    List (String × String × Nat) :=
  buildGo [] (criteria.getD DEFAULT_CRITERIA)

/-! ### DOM and page model

The browsing capability of §6 of the design: an element answers
`query_selector` from a selector-keyed list of sub-elements (first match
wins), has an inner text and attributes; a page answers
`query_selector_all` per selector and carries the result of the
`evaluate` tree-walk used only by the JS fallback.  Exceptions of the
Python DOM calls are modelled as absent results. -/

/-- A DOM element as seen through the browsing capability. -/
inductive Elem where
  | mk (text : String) (attrs : List (String × String))
      (sub : List (String × Elem))

/-- Accessor for `inner_text`. -/
def Elem.textOf : Elem → String
  | .mk t _ _ => t

/-- Accessor for `get_attribute`. -/
def Elem.attrOf : Elem → String → Option String
  | .mk _ attrs _, name => (attrs.find? (fun kv => kv.1 == name)).map (·.2)

/-- Model of `query_selector`: first sub-element stored under the selector. -/
def querySel : Elem → String → Option Elem
  | .mk _ _ sub, sel => (sub.find? (fun kv => kv.1 == sel)).map (·.2)

/-- The grouped result of the in-page JS tree walk (`page.evaluate`). -/
structure EvalGroup where
  tag : String
  className : String
  count : Nat
deriving DecidableEq

/-- A page handle. -/
structure Page where
  containersFor : List (String × List Elem)
  jsGroup : Option EvalGroup

/-- Model of `page.query_selector_all`. -/
def queryAll (page : Page) (sel : String) : List Elem :=
  ((page.containersFor.find? (fun kv => kv.1 == sel)).map (·.2)).getD []

/-! ### Strategy discovery (strategy.py) -/

/-- List `_CONTAINER_CANDIDATES`. -/
def CONTAINER_CANDIDATES : List String :=
  ["[data-product-id]", "[data-item-id]", ".product-card", ".product-item",
   ".product-tile", ".product-listing", ".product-box", ".search-result",
   ".s-result-item", ".product", "li[class*=\x27product\x27]",
   "div[class*=\x27product\x27]", "article[class*=\x27product\x27]",
   "div[class*=\x27Product\x27]", "div[class*=\x27item\x27]",
   "div[class*=\x27Item\x27]"]

/-- List `_NAME_CANDIDATES`. -/
def NAME_CANDIDATES : List String :=
  ["h2 a", "h3 a", "h2", "h3",
   "[class*=\x27title\x27] a", "[class*=\x27name\x27] a",
   "[class*=\x27Title\x27] a", "[class*=\x27Name\x27] a",
   "[class*=\x27title\x27]", "[class*=\x27name\x27]",
   "[class*=\x27Title\x27]", "[class*=\x27Name\x27]",
   "a[class*=\x27product\x27]", "a[class*=\x27Product\x27]",
   "a[class*=\x27Model\x27]"]

/-- List `_PRICE_CANDIDATES`. -/
def PRICE_CANDIDATES : List String :=
  ["[class*=\x27price\x27]", "[class*=\x27Price\x27]", "[data-price]",
   "[data-min-price]", "span[class*=\x27amount\x27]",
   "[class*=\x27cost\x27]", "[class*=\x27Cost\x27]"]

/-- List `_IMAGE_CANDIDATES`. -/
def IMAGE_CANDIDATES : List String :=
  ["img[src*=\x27product\x27]", "img[data-src]",
   "img[class*=\x27product\x27]", "img[class*=\x27Product\x27]",
   "img[loading]", "img"]

/-- List `_URL_CANDIDATES`. -/
def URL_CANDIDATES : List String :=
  ["a[href*=\x27/product\x27]", "a[href*=\x27/dp/\x27]",
   "a[href*=\x27/item\x27]", "a[href*=\x27/p/\x27]",
   "a[href*=\x27/model\x27]", "a[href*=\x27pid=\x27]", "a[href]"]

/-- Substring containment on character lists. -/
def containsSubChars (pat : List Char) : List Char → Bool
  | [] => pat.isEmpty
  | c :: cs => listHasPre pat (c :: cs) || containsSubChars pat cs

/-- Python `pat in s`. -/
def containsSub (s pat : String) : Bool :=
  containsSubChars pat.data s.data

/-- Embedding of `_detect_currency` (strategy.py): symbol first, then ISO text. -/
def detectCurrency (text : String) : String :=
  if containsSub text "₪" || containsSub (pyUpper text) "NIS"
      || containsSub (pyUpper text) "ILS" then "ILS"
  else if containsSub text "€" || containsSub (pyUpper text) "EUR" then "EUR"
  else if containsSub text "£" || containsSub (pyUpper text) "GBP" then "GBP"
  else if containsSub text "$" || containsSub (pyUpper text) "USD" then "USD"
  else ""

/-- Embedding of `_find_selector`: first candidate that matches. -/
def findSelector (container : Elem) : List String → String
  | [] => ""
  | sel :: rest =>
    match querySel container sel with
    | some _ => sel
    | none => findSelector container rest

/-- Probe a field's candidates over up to the given containers, keeping
the first non-empty selector (`if not name_sel: name_sel = ...`). -/
def probeField (probes : List Elem) (cands : List String) : String :=
  match probes with
  | [] => ""
  | c :: rest =>
    if findSelector c cands = "" then probeField rest cands
    else findSelector c cands

/-- Candidates from `_criterion_css_candidates`. -/
def criterionCssCandidates (key : String) : List String :=
  ["[class*=\x27" ++ key ++ "\x27]",
   "[class*=\x27" ++ (key.splitOn "_").headD key ++ "\x27]",
   "[data-spec=\x27" ++ key ++ "\x27]",
   "[data-attribute=\x27" ++ key ++ "\x27]"]

/-- Candidate probe of `_discover_criteria_selectors`: the first selector
whose element has non-empty text under 200 characters. -/
def critProbe (container : Elem) : List String → Option String
  | [] => none
  | sel :: rest =>
    match querySel container sel with
    | some el =>
      if pyStrip (Elem.textOf el) ≠ ""
          ∧ (pyStrip (Elem.textOf el)).length < 200 then some sel
      else critProbe container rest
    | none => critProbe container rest

/-- Key loop of `_discover_criteria_selectors` (the `price` key is never
probed). -/
def discoverCritGo (container : Elem) :
    List (String × String) → List (String × String)
  | [] => []
  | (key, _) :: rest =>
    if key = "price" then discoverCritGo container rest
    else
      match critProbe container (criterionCssCandidates key) with
      | some sel => (key, sel) :: discoverCritGo container rest
      | none => discoverCritGo container rest

/-- The container used for currency/criteria probing: the first of the
first three containers that answers the name selector, else the first
container. -/
def probeContainerOf (page : Page) (containerSel : String) : Elem :=
  ((((queryAll page containerSel).take 3).find?
      (fun c => (querySel c
        (probeField ((queryAll page containerSel).take 3)
          NAME_CANDIDATES)).isSome))).getD
    ((queryAll page containerSel).headD (Elem.mk "" [] []))

/-- Currency-hint detection of `discover_strategy`. -/
def currencyProbe (page : Page) (containerSel : String) : String :=
  if probeField ((queryAll page containerSel).take 3) PRICE_CANDIDATES ≠ ""
  then
    match querySel (probeContainerOf page containerSel)
        (probeField ((queryAll page containerSel).take 3) PRICE_CANDIDATES)
    with
    | some el => detectCurrency (Elem.textOf el)
    | none => ""
  else ""

/-- The CSS-candidate loop of `discover_strategy`: a candidate needs at
least 2 matching containers and a name selector found among the first 3
probed containers, else the next candidate is tried. -/
def discoverCssLoop (page : Page) (criteria : Option (List (String × String))) :
    List String → Option ScrapingStrategy
  | [] => none
  | containerSel :: restCands =>
    if (queryAll page containerSel).length < 2 then
      discoverCssLoop page criteria restCands
    else if probeField ((queryAll page containerSel).take 3) NAME_CANDIDATES
        = "" then
      discoverCssLoop page criteria restCands
    else
      some { product_container := containerSel
             name_selector :=
               probeField ((queryAll page containerSel).take 3) NAME_CANDIDATES
             price_selector :=
               probeField ((queryAll page containerSel).take 3) PRICE_CANDIDATES
             image_selector :=
               probeField ((queryAll page containerSel).take 3) IMAGE_CANDIDATES
             url_selector :=
               probeField ((queryAll page containerSel).take 3) URL_CANDIDATES
             currency_hint := currencyProbe page containerSel
             discovery_method := "css_candidates"
             criteria_selectors :=
               discoverCritGo (probeContainerOf page containerSel)
                 (criteria.getD []) }

/-- First whitespace token of a class attribute (`class_name.split()[0]`),
absent when the split is empty (the Python `IndexError` is swallowed by
the surrounding `except`). -/
def firstClassToken (className : String) : Option String :=
  match splitWsGo [] className.data with
  | [] => none
  | t :: _ => some ⟨t⟩

/-- Embedding of `_discover_by_price_pattern` over the page's already
evaluated JS group. -/
def discoverByPricePattern (page : Page) : Option ScrapingStrategy :=
  match page.jsGroup with
  | none => none
  | some r =>
    match (if r.className ≠ "" then
        (firstClassToken r.className).map (fun cls => r.tag ++ "." ++ cls)
      else some r.tag) with
    | none => none
    | some containerSel =>
      if (queryAll page containerSel).length < 2 then none
      else
        some { product_container := containerSel
               name_selector :=
                 if findSelector
                     ((queryAll page containerSel).headD (Elem.mk "" [] []))
                     NAME_CANDIDATES = "" then "a"
                 else findSelector
                   ((queryAll page containerSel).headD (Elem.mk "" [] []))
                   NAME_CANDIDATES
               price_selector :=
                 if findSelector
                     ((queryAll page containerSel).headD (Elem.mk "" [] []))
                     PRICE_CANDIDATES = "" then "span"
                 else findSelector
                   ((queryAll page containerSel).headD (Elem.mk "" [] []))
                   PRICE_CANDIDATES
               discovery_method := "price_pattern" }

/-- Embedding of `discover_strategy`: CSS candidates first, then the
price-pattern fallback. -/
def discoverStrategy (page : Page) (_productQuery : String)
    (criteria : Option (List (String × String))) : Option ScrapingStrategy :=
  match discoverCssLoop page criteria CONTAINER_CANDIDATES with
  | some st => some st
  | none => discoverByPricePattern page

/-! ### Field extractor (scraper.py `_extract_single_product`)

The `hashlib.md5(...).hexdigest()` call and `urllib.parse.urljoin` are
external capabilities passed as function parameters; a compiled regex
pattern is carried as its `search`+`group` composite
`String → Option String`. -/

/-- The extracted (already stripped) name, `""` when absent. -/
def nameOf (container : Elem) (strategy : ScrapingStrategy) : String :=
  if strategy.name_selector ≠ "" then
    match querySel container strategy.name_selector with
    | some el => pyStrip (Elem.textOf el)
    | none => ""
  else ""

/-- The stripped text of the price element, when present. -/
def priceTextOf (container : Elem) (strategy : ScrapingStrategy) :
    Option String :=
  if strategy.price_selector ≠ "" then
    (querySel container strategy.price_selector).map
      (fun el => pyStrip (Elem.textOf el))
  else none

/-- Embedding of `_detect_currency_from_text` (scraper.py): symbols only. -/
def detectCurrencyFromText (text : String) : String :=
  if containsSub text "₪" then "ILS"
  else if containsSub text "€" then "EUR"
  else if containsSub text "£" then "GBP"
  else if containsSub text "$" then "USD"
  else ""

/-- The extracted price. -/
def priceOf (container : Elem) (strategy : ScrapingStrategy) : Option ℚ :=
  match priceTextOf container strategy with
  | some t => parsePrice t
  | none => none

/-- The extracted currency: detected from the price text when possible,
else the strategy hint, else `"USD"`. -/
def currencyOf (container : Elem) (strategy : ScrapingStrategy) : String :=
  match priceTextOf container strategy with
  | some t =>
    if detectCurrencyFromText t ≠ "" then detectCurrencyFromText t
    else if strategy.currency_hint ≠ "" then strategy.currency_hint
    else "USD"
  | none =>
    if strategy.currency_hint ≠ "" then strategy.currency_hint else "USD"

/-- The extracted product URL, joined against the base URL. -/
def urlOf (container : Elem) (strategy : ScrapingStrategy)
    (urljoinF : String → String → String) (baseUrl : String) :
    Option String :=
  if strategy.url_selector ≠ "" then
    match querySel container strategy.url_selector with
    | some el =>
      match Elem.attrOf el "href" with
      | some href =>
        if href ≠ "" then some (urljoinF baseUrl href) else none
      | none => none
    | none => none
  else none

/-- Python `a or b` over optional strings (`None` and `""` are falsy). -/
def pyOrStr (a b : Option String) : Option String :=
  match a with
  | some s => if s ≠ "" then some s else b
  | none => b

/-- The extracted image URL (`src` or `data-src`), joined. -/
def imageOf (container : Elem) (strategy : ScrapingStrategy)
    (urljoinF : String → String → String) (baseUrl : String) :
    Option String :=
  if strategy.image_selector ≠ "" then
    match querySel container strategy.image_selector with
    | some el =>
      match pyOrStr (Elem.attrOf el "src") (Elem.attrOf el "data-src") with
      | some src =>
        if src ≠ "" then some (urljoinF baseUrl src) else none
      | none => none
    | none => none
  else none

/-- The extracted brand (stripped text of the brand element). -/
def brandOf (container : Elem) (strategy : ScrapingStrategy) :
    Option String :=
  if strategy.brand_selector ≠ "" then
    (querySel container strategy.brand_selector).map
      (fun el => pyStrip (Elem.textOf el))
  else none

/-- The raw MPN text (stripped), when the selector matches. -/
def mpnRawOf (container : Elem) (strategy : ScrapingStrategy) :
    Option String :=
  if strategy.mpn_selector ≠ "" then
    (querySel container strategy.mpn_selector).map
      (fun el => pyStrip (Elem.textOf el))
  else none

/-- The brand+name hash key: `f"{brand or ''}{name}".lower().strip()`. -/
def hashKeyOf (brand : Option String) (name : String) : String :=
  pyStrip (pyLower (brand.getD "" ++ name))

/-- The hash-placeholder fallback for `model_id`: the first 12 characters
of the digest of the brand+name key, when that key is non-empty. -/
def modelIdFallback (container : Elem) (strategy : ScrapingStrategy)
    (digest : String → String) : Option String :=
  if hashKeyOf (brandOf container strategy) (nameOf container strategy)
      ≠ "" then
    some (⟨(digest (hashKeyOf (brandOf container strategy)
      (nameOf container strategy))).data.take 12⟩ : String)
  else none

/-- The final `model_id`: the MPN text when truthy (`if not model_id`
fails for both `None` and `""`), else the hash placeholder. -/
def modelIdOf (container : Elem) (strategy : ScrapingStrategy)
    (digest : String → String) : Option String :=
  if (mpnRawOf container strategy).getD "" ≠ "" then
    mpnRawOf container strategy
  else modelIdFallback container strategy digest

/-- Phase 1 of criteria extraction: per-criterion CSS selectors from the
strategy, accepted when the text is non-empty and under 200 characters. -/
def criteriaPhase1 (container : Elem) (sels : List (String × String)) :
    List (String × String) :=
  sels.foldl
    (fun acc kv =>
      match querySel container kv.2 with
      | some el =>
        if pyStrip (Elem.textOf el) ≠ ""
            ∧ (pyStrip (Elem.textOf el)).length < 200 then
          acc ++ [(kv.1, pyStrip (Elem.textOf el))]
        else acc
      | none => acc)
    []

/-- Phase 2: text-pattern fallback for keys not yet present; phase 1
values are never overwritten. -/
def criteriaPhase2 (fullText : String)
    (patterns : List ((String → Option String) × String))
    (acc : List (String × String)) : List (String × String) :=
  patterns.foldl
    (fun acc2 pk =>
      if acc2.any (fun kv => kv.1 == pk.2) then acc2
      else
        match pk.1 fullText with
        | some v =>
          if pyStrip v ≠ "" then acc2 ++ [(pk.2, pyStrip v)] else acc2
        | none => acc2)
    acc

/-- Both criteria phases of `_extract_single_product`. -/
def criteriaOf (container : Elem) (strategy : ScrapingStrategy)
    (patterns : List ((String → Option String) × String)) :
    List (String × String) :=
  if patterns.isEmpty = false ∧ pyStrip (Elem.textOf container) ≠ "" then
    criteriaPhase2 (pyStrip (Elem.textOf container)) patterns
      (criteriaPhase1 container strategy.criteria_selectors)
  else criteriaPhase1 container strategy.criteria_selectors

/-- Embedding of `_extract_single_product`: `none` exactly when no
non-empty name is extracted, else one record with one seller. -/
def extractSingleProduct (container : Elem) (strategy : ScrapingStrategy)
    (baseUrl domain : String) (urljoinF : String → String → String)
    (digest : String → String)
    (patterns : List ((String → Option String) × String)) :
    Option ProductResult :=
  if nameOf container strategy = "" then none
  else
    some { name := nameOf container strategy
           model_id := modelIdOf container strategy digest
           brand := brandOf container strategy
           image_url := imageOf container strategy urljoinF baseUrl
           criteria := criteriaOf container strategy patterns
           sellers := [{ name := domain
                         price := priceOf container strategy
                         currency := currencyOf container strategy
                         url := urlOf container strategy urljoinF baseUrl }] }

/-- Embedding of `_extract_with_strategy`: up to 50 containers, a record
per container whose extraction succeeds. -/
def extractWithStrategy (page : Page) (strategy : ScrapingStrategy)
    (baseUrl : String) (urljoinF : String → String → String)
    (digest : String → String)
    (patterns : List ((String → Option String) × String)) :
    List ProductResult :=
  ((queryAll page strategy.product_container).take 50).filterMap
    (fun c =>
      extractSingleProduct c strategy baseUrl (extractDomain baseUrl)
        urljoinF digest patterns)

/-! ### Concrete fixtures used by the witnesses -/

/-- A sample listing page: two `.product-card` containers, each with an
`h2 a` name element. -/
def samplePage : Page :=
  { containersFor :=
      [(".product-card",
        [Elem.mk "Product A" [] [("h2 a", Elem.mk "Product A" [] [])],
         Elem.mk "Product B" [] [("h2 a", Elem.mk "Product B" [] [])]])]
    jsGroup := none }

/-- The strategy that CSS discovery finds on `samplePage`. -/
def sampleStrategy : ScrapingStrategy :=
  { product_container := ".product-card", name_selector := "h2 a" }

/-- A stand-in for the md5 hexdigest capability: 32 lowercase hex
characters for every input. -/
def sampleDigest : String → String :=
  fun _ => "0123456789abcdef0123456789abcdef"

/-- The record the extractor produces from `samplePage`'s first card. -/
def sampleRecord : ProductResult :=
  { name := "Product A", model_id := some "0123456789ab",
    sellers := [{ name := "x.com" }] }

end SmartShopping

namespace SmartShopping

/-! ### Generic list lemmas used throughout -/

theorem mem_of_mem_dropWhile {p : Char → Bool} {l : List Char} {x : Char}
    (h : x ∈ l.dropWhile p) : x ∈ l := by
  induction l with
  | nil => simp at h
  | cons a t ih =>
    rw [List.dropWhile_cons] at h
    by_cases hp : p a
    · simp only [hp, if_true] at h
      exact List.mem_cons_of_mem _ (ih h)
    · simp only [hp, if_false] at h
      exact h

theorem mem_of_mem_stripChars {l : List Char} {x : Char}
    (h : x ∈ stripChars l) : x ∈ l := by
  unfold stripChars at h
  rw [List.mem_reverse] at h
  have h2 := mem_of_mem_dropWhile h
  rw [List.mem_reverse] at h2
  exact mem_of_mem_dropWhile h2

theorem stripChars_id {l : List Char} (h : ∀ c ∈ l, isWs c = false) :
    stripChars l = l := by
  unfold stripChars
  have h1 : l.dropWhile isWs = l := by
    cases l with
    | nil => rfl
    | cons a t => rw [List.dropWhile_cons, h a (by simp)]; simp
  rw [h1]
  have h2 : l.reverse.dropWhile isWs = l.reverse := by
    cases hr : l.reverse with
    | nil => rfl
    | cons a t =>
      have ha : a ∈ l := by
        rw [← List.mem_reverse, hr]; simp
      rw [List.dropWhile_cons, h a ha]; simp
  rw [h2, List.reverse_reverse]

/-! ### Facts about `parse_price` (claim C6 support) -/

theorem beq_false_of_isDigit {c : Char} (d : Char) (hd : d.isDigit = false)
    (h : c.isDigit = true) : (c == d) = false := by
  cases hb : (c == d)
  · rfl
  · exfalso
    have he : c = d := beq_iff_eq.mp hb
    rw [he, hd] at h
    exact Bool.false_ne_true h

theorem digit_not_ws {c : Char} (h : c.isDigit = true) : isWs c = false := by
  unfold isWs
  rw [beq_false_of_isDigit ' ' (by decide) h,
    beq_false_of_isDigit '\t' (by decide) h,
    beq_false_of_isDigit '\n' (by decide) h,
    beq_false_of_isDigit '\x0d' (by decide) h,
    beq_false_of_isDigit '\x0b' (by decide) h,
    beq_false_of_isDigit '\x0c' (by decide) h]
  rfl

theorem afterLast_eq_none {c : Char} :
    ∀ {l : List Char}, (∀ x ∈ l, (x == c) = false) → afterLast c l = none := by
  intro l
  induction l with
  | nil => intro _; rfl
  | cons a t ih =>
    intro h
    simp only [afterLast]
    rw [ih (fun x hx => h x (List.mem_cons_of_mem _ hx))]
    simp [h a (by simp)]

theorem afterLast_append_cons {c : Char} {b : List Char}
    (hb : ∀ x ∈ b, (x == c) = false) :
    ∀ a : List Char, afterLast c (a ++ c :: b) = some b := by
  intro a
  induction a with
  | nil =>
    simp only [List.nil_append, afterLast]
    rw [afterLast_eq_none hb]
    simp
  | cons x xs ih =>
    simp only [List.cons_append, afterLast, List.append_eq]
    rw [ih]

theorem removeAll_id {c : Char} {l : List Char}
    (h : ∀ x ∈ l, (x == c) = false) : removeAll c l = l := by
  unfold removeAll
  rw [List.filter_eq_self]
  intro x hx
  rw [bne_iff_ne]
  intro he
  have hc := h x hx
  rw [he] at hc
  simp at hc

theorem replaceAll_id {c d : Char} :
    ∀ {l : List Char}, (∀ x ∈ l, (x == c) = false) → replaceAll c d l = l := by
  intro l
  induction l with
  | nil => intro _; rfl
  | cons x xs ih =>
    intro h
    unfold replaceAll at ih ⊢
    rw [List.map_cons, ih (fun y hy => h y (List.mem_cons_of_mem _ hy))]
    have hx := h x (by simp)
    simp [hx]

theorem takeWhile_until {c : Char} {b : List Char} :
    ∀ {a : List Char}, (∀ x ∈ a, (x == c) = false) →
      (a ++ c :: b).takeWhile (fun x => x != c) = a := by
  intro a
  induction a with
  | nil =>
    intro _
    simp [List.takeWhile_cons]
  | cons x xs ih =>
    intro ha
    rw [List.cons_append, List.takeWhile_cons]
    have hx : (x != c) = true := by
      rw [bne_iff_ne]
      intro he
      have hc := ha x (by simp)
      rw [he] at hc
      simp at hc
    rw [hx]
    simp only [if_true]
    rw [ih (fun y hy => ha y (List.mem_cons_of_mem _ hy))]

theorem takeWhile_all {p : Char → Bool} :
    ∀ {l : List Char}, (∀ x ∈ l, p x = true) → l.takeWhile p = l := by
  intro l
  induction l with
  | nil => intro _; rfl
  | cons x xs ih =>
    intro h
    rw [List.takeWhile_cons, h x (by simp), if_pos rfl,
      ih (fun y hy => h y (List.mem_cons_of_mem _ hy))]

theorem contains_false {c : Char} {l : List Char} (h : c ∉ l) :
    l.contains c = false := by
  cases hb : l.contains c
  · rfl
  · exfalso
    rw [List.contains_eq_any_beq] at hb
    rw [List.any_eq_true] at hb
    obtain ⟨x, hx, he⟩ := hb
    rw [beq_iff_eq] at he
    exact h (he ▸ hx)

theorem contains_true {c : Char} {l : List Char} (h : c ∈ l) :
    l.contains c = true := by
  rw [List.contains_eq_any_beq, List.any_eq_true]
  exact ⟨c, h, beq_self_eq_true c⟩

theorem floatParse_no_digit {l : List Char} (h : ∀ c ∈ l, c.isDigit = false) :
    floatParse l = none := by
  unfold floatParse
  have hd : l.any Char.isDigit = false := by
    rw [List.any_eq_false]
    intro x hx hc
    rw [h x hx] at hc
    exact Bool.false_ne_true hc
  rw [hd]
  simp

theorem floatParse_all_digits :
    ∀ {l : List Char}, (∀ c ∈ l, c.isDigit = true) →
      floatParse l = if l = [] then none else some ((digitsVal l : ℚ)) := by
  intro l
  intro h
  have hdotmem : '.' ∉ l := fun hm => absurd (h _ hm) (by decide)
  have hbad : (l.any fun c => !(c.isDigit || c == '.')) = false := by
    rw [List.any_eq_false]
    intro x hx hc
    rw [h x hx] at hc
    simp at hc
  have hcnt : l.count '.' = 0 := List.count_eq_zero.mpr hdotmem
  cases l with
  | nil => rfl
  | cons x xs =>
    unfold floatParse
    rw [hbad, hcnt]
    have hany : (x :: xs).any Char.isDigit = true := by
      rw [List.any_eq_true]
      exact ⟨x, by simp, h x (by simp)⟩
    rw [hany]
    have hip : (x :: xs).takeWhile (fun c => c != '.') = x :: xs :=
      takeWhile_all (fun y hy => by
        rw [bne_iff_ne]
        intro he
        exact hdotmem (he ▸ hy))
    have hfp : afterLast '.' (x :: xs) = none :=
      afterLast_eq_none (fun y hy => beq_false_of_isDigit '.' (by decide) (h y hy))
    rw [hip, hfp]
    simp
    rfl

theorem floatParse_digits_dot {a b : List Char}
    (ha : ∀ c ∈ a, c.isDigit = true) (hb : ∀ c ∈ b, c.isDigit = true)
    (hbne : b ≠ []) :
    floatParse (a ++ '.' :: b) =
      some ((digitsVal a : ℚ) + (digitsVal b : ℚ) / (10 : ℚ) ^ b.length) := by
  unfold floatParse
  have hbad : ((a ++ '.' :: b).any fun c => !(c.isDigit || c == '.')) = false := by
    rw [List.any_eq_false]
    intro x hx hc
    rw [List.mem_append] at hx
    rcases hx with hx | hx
    · rw [ha x hx] at hc; simp at hc
    · rcases List.mem_cons.mp hx with rfl | hx
      · simp at hc
      · rw [hb x hx] at hc; simp at hc
  have hdota : '.' ∉ a := fun hm => absurd (ha _ hm) (by decide)
  have hdotb : '.' ∉ b := fun hm => absurd (hb _ hm) (by decide)
  have hcnt : (a ++ '.' :: b).count '.' = 1 := by
    rw [List.count_append, List.count_cons]
    rw [List.count_eq_zero.mpr hdota, List.count_eq_zero.mpr hdotb]
    simp
  have hany : (a ++ '.' :: b).any Char.isDigit = true := by
    rw [List.any_eq_true]
    cases b with
    | nil => exact absurd rfl hbne
    | cons y ys => exact ⟨y, by simp, hb y (by simp)⟩
  rw [hbad, hcnt, hany]
  have hip : (a ++ '.' :: b).takeWhile (fun c => c != '.') = a :=
    takeWhile_until (fun y hy => beq_false_of_isDigit '.' (by decide) (ha y hy))
  have hfp : afterLast '.' (a ++ '.' :: b) = some b :=
    afterLast_append_cons
      (fun y hy => beq_false_of_isDigit '.' (by decide) (hb y hy)) a
  rw [hip, hfp]
  simp

theorem price_char_not_ws {c : Char} (h : isPriceChar c = true) : isWs c = false := by
  unfold isPriceChar at h
  rw [Bool.or_eq_true, Bool.or_eq_true] at h
  rcases h with (hd | hdot) | hcomma
  · exact digit_not_ws hd
  · rw [beq_iff_eq] at hdot
    subst hdot
    decide
  · rw [beq_iff_eq] at hcomma
    subst hcomma
    decide

theorem cleaned_id {l : List Char} (h : ∀ c ∈ l, isPriceChar c = true) :
    (stripChars l).filter isPriceChar = l := by
  rw [stripChars_id (fun c hc => price_char_not_ws (h c hc))]
  exact List.filter_eq_self.mpr h

theorem mem_removeAll {c d : Char} {l : List Char} (h : c ∈ removeAll d l) :
    c ∈ l :=
  (List.mem_filter.mp h).1

theorem mem_replaceAll {c a b : Char} {l : List Char}
    (h : c ∈ replaceAll a b l) : c = b ∨ c ∈ l := by
  unfold replaceAll at h
  obtain ⟨y, hy, hf⟩ := List.mem_map.mp h
  by_cases hya : (y == a) = true
  · rw [if_pos hya] at hf
    exact Or.inl hf.symm
  · rw [if_neg hya] at hf
    exact Or.inr (hf ▸ hy)

theorem mem_sep_normalize {l : List Char} {c : Char}
    (hc : c ∈ priceSepNormalize l) : c = '.' ∨ c ∈ l := by
  unfold priceSepNormalize at hc
  split at hc
  · split at hc
    · split at hc
      · rcases mem_replaceAll hc with h | h
        · exact Or.inl h
        · exact Or.inr (mem_removeAll h)
      · exact Or.inr (mem_removeAll hc)
    · exact Or.inr hc
  · split at hc
    · split at hc
      · split at hc
        · rcases mem_replaceAll hc with h | h
          · exact Or.inl h
          · exact Or.inr h
        · exact Or.inr (mem_removeAll hc)
      · exact Or.inr hc
    · exact Or.inr hc

theorem replaceAll_split {a b : List Char}
    (ha : ∀ x ∈ a, (x == ',') = false) (hb : ∀ x ∈ b, (x == ',') = false) :
    replaceAll ',' '.' (a ++ ',' :: b) = a ++ '.' :: b := by
  have h1 := replaceAll_id (c := ',') (d := '.') ha
  have h2 := replaceAll_id (c := ',') (d := '.') hb
  unfold replaceAll at h1 h2 ⊢
  rw [List.map_append, List.map_cons, h1, h2]
  norm_num

theorem removeAll_split {a b : List Char}
    (ha : ∀ x ∈ a, (x == ',') = false) (hb : ∀ x ∈ b, (x == ',') = false) :
    removeAll ',' (a ++ ',' :: b) = a ++ b := by
  have h1 := removeAll_id (c := ',') ha
  have h2 := removeAll_id (c := ',') hb
  unfold removeAll at h1 h2 ⊢
  rw [List.filter_append, List.filter_cons, h1, h2]
  norm_num

/-- C6: `parse_price` is a total function into `float | null` (never
raises).  It returns `null` when the input has no digits; with both `,`
and `.` present the separator appearing later is the decimal separator
(`"1,299.99"` and `"1.299,99"` both yield 1299.99); text whose cleaned
form fails to parse (e.g. `"1.2.3"`) yields `null`; and when only `,` is
present it is a decimal separator exactly when two digits follow it
(value `a.b/100`), else a thousands separator (digits concatenated). -/
theorem parse_price_contract :
    (∀ s : String, (∀ c ∈ s.data, c.isDigit = false) → parsePrice s = none)
    ∧ parsePrice "1,299.99" = some (129999 / 100)
    ∧ parsePrice "1.299,99" = some (129999 / 100)
    ∧ parsePrice "free" = none
    ∧ parsePrice "1.2.3" = none
    ∧ (∀ a b : List Char,
        (∀ c ∈ a, c.isDigit = true) → (∀ c ∈ b, c.isDigit = true) →
        (b.length = 2 →
          parsePrice ⟨a ++ ',' :: b⟩ =
            some ((digitsVal a : ℚ) + (digitsVal b : ℚ) / 100))
        ∧ (b.length ≠ 2 →
          parsePrice ⟨a ++ ',' :: b⟩ =
            if a ++ b = [] then none
            else some ((digitsVal (a ++ b) : ℚ)))) := by
  refine ⟨?_, ?_, ?_, by rfl, by rfl, ?_⟩
  · intro s h
    show parsePriceChars s.data = none
    unfold parsePriceChars
    cases hemp : s.data.isEmpty
    · rw [if_neg (by simp [hemp])]
      cases hemp2 : ((stripChars s.data).filter isPriceChar).isEmpty
      · rw [if_neg (by simp [hemp2])]
        apply floatParse_no_digit
        intro c hc
        rcases mem_sep_normalize hc with rfl | hc2
        · decide
        · exact h c (mem_of_mem_stripChars (List.mem_filter.mp hc2).1)
      · simp
    · simp
  · have h : parsePrice "1,299.99" =
        some ((digitsVal ['1', '2', '9', '9'] : ℚ) +
          (digitsVal ['9', '9'] : ℚ) / (10 : ℚ) ^ 2) := rfl
    rw [h, show digitsVal ['1', '2', '9', '9'] = 1299 from rfl,
      show digitsVal ['9', '9'] = 99 from rfl]
    norm_num
  · have h : parsePrice "1.299,99" =
        some ((digitsVal ['1', '2', '9', '9'] : ℚ) +
          (digitsVal ['9', '9'] : ℚ) / (10 : ℚ) ^ 2) := rfl
    rw [h, show digitsVal ['1', '2', '9', '9'] = 1299 from rfl,
      show digitsVal ['9', '9'] = 99 from rfl]
    norm_num
  · intro a b ha hb
    have hpc : ∀ c ∈ a ++ ',' :: b, isPriceChar c = true := by
      intro c hc
      rcases List.mem_append.mp hc with h1 | h1
      · unfold isPriceChar
        rw [ha c h1]
        rfl
      · rcases List.mem_cons.mp h1 with rfl | h1
        · decide
        · unfold isPriceChar
          rw [hb c h1]
          rfl
    have hane : ∀ x ∈ a, (x == ',') = false :=
      fun x hx => beq_false_of_isDigit ',' (by decide) (ha x hx)
    have hbne : ∀ x ∈ b, (x == ',') = false :=
      fun x hx => beq_false_of_isDigit ',' (by decide) (hb x hx)
    have hdotm : ('.' : Char) ∉ a ++ ',' :: b := by
      intro hm
      rcases List.mem_append.mp hm with h1 | h1
      · exact absurd (ha _ h1) (by decide)
      · rcases List.mem_cons.mp h1 with h2 | h2
        · exact absurd h2 (by decide)
        · exact absurd (hb _ h2) (by decide)
    have hcomma : (',' : Char) ∈ a ++ ',' :: b :=
      List.mem_append.mpr (Or.inr (by simp))
    have hraw : parsePrice ⟨a ++ ',' :: b⟩ = parsePriceChars (a ++ ',' :: b) := rfl
    have hnil : (a ++ ',' :: b).isEmpty = false := by cases a <;> rfl
    have hnorm : priceSepNormalize (a ++ ',' :: b) =
        if b.length = 2 then a ++ '.' :: b else a ++ b := by
      unfold priceSepNormalize
      rw [contains_false hdotm, contains_true hcomma]
      simp only [Bool.and_false, Bool.false_eq_true, if_false, if_true]
      rw [afterLast_append_cons hbne a]
      show (if (b.length == 2) = true then replaceAll ',' '.' (a ++ ',' :: b)
            else removeAll ',' (a ++ ',' :: b)) =
          if b.length = 2 then a ++ '.' :: b else a ++ b
      by_cases hb2 : b.length = 2
      · rw [if_pos (beq_iff_eq.mpr hb2), if_pos hb2]
        exact replaceAll_split hane hbne
      · rw [if_neg (by simp [hb2]), if_neg hb2]
        exact removeAll_split hane hbne
    have hmain : parsePriceChars (a ++ ',' :: b) =
        floatParse (if b.length = 2 then a ++ '.' :: b else a ++ b) := by
      unfold parsePriceChars
      rw [cleaned_id hpc, hnil, hnorm]
      simp
    constructor
    · intro hlen
      rw [hraw, hmain, if_pos hlen]
      have hb0 : b ≠ [] := by
        intro hb1
        rw [hb1] at hlen
        exact absurd hlen (by decide)
      rw [floatParse_digits_dot ha hb hb0, hlen]
      norm_num
    · intro hlen
      rw [hraw, hmain, if_neg hlen]
      exact floatParse_all_digits (by
        intro c hc
        rcases List.mem_append.mp hc with h1 | h1
        · exact ha c h1
        · exact hb c h1)

/-! ### Claim C1: fuzzy grouping -/

theorem namesMatch_characterization (a b : String) :
    namesMatch a b = true ↔
      normalizeName a = normalizeName b
      ∨ (2 ≤ (nameTokens a).card ∧ 2 ≤ (nameTokens b).card
          ∧ (3 : ℚ) / 5 ≤
            ((nameTokens a ∩ nameTokens b).card : ℚ) /
              ((min (nameTokens a).card (nameTokens b).card : ℕ) : ℚ)) := by
  unfold namesMatch
  by_cases heq : normalizeName a = normalizeName b
  · simp [heq]
  · rw [if_neg heq]
    by_cases hea : nameTokens a = ∅
    · have hca : (nameTokens a).card = 0 := by rw [hea]; rfl
      rw [if_pos (by rw [hea]; simp)]
      constructor
      · intro hfalse
        exact absurd hfalse (by simp)
      · rintro (h | ⟨h2, _, _⟩)
        · exact absurd h heq
        · rw [hca] at h2
          exact absurd h2 (by norm_num)
    · by_cases heb : nameTokens b = ∅
      · have hcb : (nameTokens b).card = 0 := by rw [heb]; rfl
        rw [if_pos (by rw [heb]; simp)]
        constructor
        · intro hfalse
          exact absurd hfalse (by simp)
        · rintro (h | ⟨_, h2, _⟩)
          · exact absurd h heq
          · rw [hcb] at h2
            exact absurd h2 (by norm_num)
      · rw [if_neg (by simp [hea, heb])]
        by_cases hcase : (nameTokens a).card ≤ (nameTokens b).card
        · rw [if_pos hcase, if_pos hcase]
          have hmin : min (nameTokens a).card (nameTokens b).card =
              (nameTokens a).card := min_eq_left hcase
          by_cases hlt : (nameTokens a).card < 2
          · rw [if_pos hlt]
            constructor
            · intro hfalse
              exact absurd hfalse (by simp)
            · rintro (h | ⟨h2, _, _⟩)
              · exact absurd h heq
              · exact absurd h2 (by omega)
          · rw [if_neg hlt]
            rw [decide_eq_true_iff]
            constructor
            · intro hr
              refine Or.inr ⟨by omega, le_trans (by omega) hcase, ?_⟩
              rw [hmin]
              calc (3 : ℚ) / 5 = 0.6 := by norm_num
                _ ≤ _ := hr
            · rintro (h | ⟨_, _, hr⟩)
              · exact absurd h heq
              · rw [hmin] at hr
                calc (0.6 : ℚ) = 3 / 5 := by norm_num
                  _ ≤ _ := hr
        · rw [if_neg hcase, if_neg hcase]
          have hle : (nameTokens b).card ≤ (nameTokens a).card :=
            le_of_lt (lt_of_not_le hcase)
          have hmin : min (nameTokens a).card (nameTokens b).card =
              (nameTokens b).card := min_eq_right hle
          have hint : nameTokens b ∩ nameTokens a = nameTokens a ∩ nameTokens b :=
            Finset.inter_comm _ _
          by_cases hlt : (nameTokens b).card < 2
          · rw [if_pos hlt]
            constructor
            · intro hfalse
              exact absurd hfalse (by simp)
            · rintro (h | ⟨_, h2, _⟩)
              · exact absurd h heq
              · exact absurd h2 (by omega)
          · rw [if_neg hlt]
            rw [decide_eq_true_iff]
            constructor
            · intro hr
              refine Or.inr ⟨le_trans (by omega) hle, by omega, ?_⟩
              rw [hmin, ← hint]
              calc (3 : ℚ) / 5 = 0.6 := by norm_num
                _ ≤ _ := hr
            · rintro (h | ⟨_, _, hr⟩)
              · exact absurd h heq
              · rw [hmin, ← hint] at hr
                calc (0.6 : ℚ) = 3 / 5 := by norm_num
                  _ ≤ _ := hr

theorem addFuzzy_invariant (p : ProductResult) :
    ∀ gs, (∀ g ∈ gs, ∀ x ∈ g.2, namesMatch x.name g.1.name = true) →
      ∀ g ∈ addFuzzy p gs, ∀ x ∈ g.2, namesMatch x.name g.1.name = true := by
  intro gs
  induction gs with
  | nil =>
    intro _ g hg x hx
    unfold addFuzzy at hg
    rw [List.mem_singleton] at hg
    subst hg
    simp at hx
  | cons ht rest ih =>
    intro hinv g hg x hx
    rcases ht with ⟨h, t⟩
    unfold addFuzzy at hg
    by_cases hm : namesMatch p.name h.name = true
    · rw [if_pos hm] at hg
      rcases List.mem_cons.mp hg with rfl | hg2
      · rcases List.mem_append.mp hx with hxt | hxp
        · exact hinv (h, t) (by simp) x hxt
        · rw [List.mem_singleton] at hxp
          subst hxp
          exact hm
      · exact hinv g (List.mem_cons_of_mem _ hg2) x hx
    · rw [if_neg hm] at hg
      rcases List.mem_cons.mp hg with rfl | hg2
      · exact hinv (h, t) (by simp) x hx
      · exact ih (fun g2 hg3 => hinv g2 (List.mem_cons_of_mem _ hg3)) g hg2 x hx

theorem fuzzyGroups_members_match_head :
    ∀ (l : List ProductResult) gs,
      (∀ g ∈ gs, ∀ x ∈ g.2, namesMatch x.name g.1.name = true) →
      ∀ g ∈ l.foldl (fun gs p => addFuzzy p gs) gs,
        ∀ x ∈ g.2, namesMatch x.name g.1.name = true := by
  intro l
  induction l with
  | nil => exact fun gs hinv => hinv
  | cons p rest ih =>
    intro gs hinv
    rw [List.foldl_cons]
    exact ih (addFuzzy p gs) (addFuzzy_invariant p gs hinv)

/-- C1 (amended): in the reconciliation second pass a record joins the
first fuzzy group whose *first* member's name matches it, and two names
match iff their normalised forms are equal, or both token sets have at
least 2 tokens and the token-overlap ratio (|intersection| / |tokens of
the shorter name|) is at least 0.6.  Hence every non-head group member
name-matches the group's head, but two identical normalised names merge
even when their token sets have fewer than 2 tokens. -/
theorem fuzzy_grouping_contract :
    (∀ a b : String, namesMatch a b = true ↔
      normalizeName a = normalizeName b
      ∨ (2 ≤ (nameTokens a).card ∧ 2 ≤ (nameTokens b).card
          ∧ (3 : ℚ) / 5 ≤
            ((nameTokens a ∩ nameTokens b).card : ℚ) /
              ((min (nameTokens a).card (nameTokens b).card : ℕ) : ℚ)))
    ∧ (∀ (l : List ProductResult) (g : ProductResult × List ProductResult),
        g ∈ fuzzyGroups l → ∀ x ∈ g.2, namesMatch x.name g.1.name = true) := by
  constructor
  · exact namesMatch_characterization
  · intro l g hg x hx
    exact fuzzyGroups_members_match_head l [] (by simp) g hg x hx

/-- C1 counterexample: the claim states that no two records whose names
have fewer than 2 tokens are ever merged, yet two records both named
"tv" (a single token) land in the same fuzzy group through the
equal-normalised-name shortcut of `_names_match`. -/
theorem fuzzy_grouping_counterexample :
    (nameTokens "tv").card < 2
    ∧ fuzzyGroups
        [{ name := "tv", model_id := some "" },
         { name := "tv", model_id := some "" }] =
      [({ name := "tv", model_id := some "" },
        [{ name := "tv", model_id := some "" }])] := by
  constructor
  · decide
  · rfl

/-- Witness for C1 at a concrete input: with two records named
"galaxy s24", the fuzzy pass forms one group and the non-head member
name-matches the head. -/
theorem fuzzy_grouping_contract_witness :
    namesMatch "galaxy s24" "galaxy s24" = true :=
  fuzzy_grouping_contract.2
    [{ name := "galaxy s24" }, { name := "galaxy s24" }]
    ({ name := "galaxy s24" }, [{ name := "galaxy s24" }])
    (by decide)
    { name := "galaxy s24" }
    (by decide)

/-! ### Claim C5: exact-model_id grouping -/

theorem lookupGroup_mem {mid : String} {g : List ProductResult} :
    ∀ {gs}, lookupGroup mid gs = some g → (mid, g) ∈ gs := by
  intro gs
  induction gs with
  | nil => intro h; simp [lookupGroup] at h
  | cons e rest ih =>
    intro h
    rcases e with ⟨k, gr⟩
    unfold lookupGroup at h
    by_cases hk : k = mid
    · rw [if_pos hk] at h
      injection h with h2
      rw [← hk, ← h2]
      exact List.mem_cons_self _ _
    · rw [if_neg hk] at h
      exact List.mem_cons_of_mem _ (ih h)

theorem lookupGroup_addIdGroup_same (mid : String) (p : ProductResult) :
    ∀ gs, lookupGroup mid (addIdGroup mid p gs) =
      some ((lookupGroup mid gs).getD [] ++ [p]) := by
  intro gs
  induction gs with
  | nil => simp [addIdGroup, lookupGroup]
  | cons e rest ih =>
    rcases e with ⟨k, g⟩
    unfold addIdGroup
    by_cases hk : k = mid
    · rw [if_pos hk]
      unfold lookupGroup
      rw [if_pos hk, if_pos hk]
      simp
    · rw [if_neg hk]
      unfold lookupGroup
      rw [if_neg hk, if_neg hk]
      exact ih

theorem lookupGroup_addIdGroup_other {mid mid2 : String} (hne : mid2 ≠ mid)
    (p : ProductResult) :
    ∀ gs, lookupGroup mid2 (addIdGroup mid p gs) = lookupGroup mid2 gs := by
  intro gs
  induction gs with
  | nil =>
    unfold addIdGroup lookupGroup
    rw [if_neg (fun h => hne h.symm)]
    rfl
  | cons e rest ih =>
    rcases e with ⟨k, g⟩
    unfold addIdGroup
    by_cases hk : k = mid
    · rw [if_pos hk]
      unfold lookupGroup
      have hk2 : k ≠ mid2 := by rw [hk]; exact fun h => hne h.symm
      rw [if_neg hk2, if_neg hk2]
    · rw [if_neg hk]
      unfold lookupGroup
      by_cases hk2 : k = mid2
      · rw [if_pos hk2, if_pos hk2]
      · rw [if_neg hk2, if_neg hk2]
        exact ih

theorem addIdGroup_invariant {p : ProductResult} (hu : usableId p = true) :
    ∀ gs, (∀ e ∈ gs, ∀ x ∈ e.2, usableId x = true ∧ x.model_id.getD "" = e.1) →
      ∀ e ∈ addIdGroup (p.model_id.getD "") p gs, ∀ x ∈ e.2,
        usableId x = true ∧ x.model_id.getD "" = e.1 := by
  intro gs
  induction gs with
  | nil =>
    intro _ e he x hx
    unfold addIdGroup at he
    rw [List.mem_singleton] at he
    subst he
    rw [List.mem_singleton] at hx
    subst hx
    exact ⟨hu, rfl⟩
  | cons kg rest ih =>
    intro hinv e he x hx
    rcases kg with ⟨k, g⟩
    unfold addIdGroup at he
    by_cases hk : k = p.model_id.getD ""
    · rw [if_pos hk] at he
      rcases List.mem_cons.mp he with rfl | he2
      · rcases List.mem_append.mp hx with hxg | hxp
        · exact hinv (k, g) (by simp) x hxg
        · rw [List.mem_singleton] at hxp
          subst hxp
          exact ⟨hu, hk.symm⟩
      · exact hinv e (List.mem_cons_of_mem _ he2) x hx
    · rw [if_neg hk] at he
      rcases List.mem_cons.mp he with rfl | he2
      · exact hinv (k, g) (by simp) x hx
      · exact ih (fun e2 he3 => hinv e2 (List.mem_cons_of_mem _ he3)) e he2 x hx

theorem idPartition_groups_sound :
    ∀ (l : List ProductResult) gs ug,
      (∀ e ∈ gs, ∀ x ∈ e.2, usableId x = true ∧ x.model_id.getD "" = e.1) →
      ∀ e ∈ (l.foldl idStep (gs, ug)).1, ∀ x ∈ e.2,
        usableId x = true ∧ x.model_id.getD "" = e.1 := by
  intro l
  induction l with
  | nil => intro gs ug hinv; exact hinv
  | cons p rest ih =>
    intro gs ug hinv
    rw [List.foldl_cons]
    unfold idStep
    by_cases hu : usableId p = true
    · rw [if_pos hu]
      exact ih _ _ (addIdGroup_invariant hu gs hinv)
    · rw [if_neg hu]
      exact ih _ _ hinv

theorem idPartition_lookup :
    ∀ (l : List ProductResult) gs ug (p : ProductResult),
      usableId p = true →
      (p ∈ l ∨ ∃ g, lookupGroup (p.model_id.getD "") gs = some g ∧ p ∈ g) →
      ∃ g, lookupGroup (p.model_id.getD "") (l.foldl idStep (gs, ug)).1 = some g
        ∧ p ∈ g := by
  intro l
  induction l with
  | nil =>
    intro gs ug p _ h
    rcases h with h | h
    · simp at h
    · exact h
  | cons q rest ih =>
    intro gs ug p hu h
    rw [List.foldl_cons]
    unfold idStep
    by_cases hq : usableId q = true
    · rw [if_pos hq]
      apply ih _ _ p hu
      rcases h with hmem | ⟨g, hg, hpg⟩
      · rcases List.mem_cons.mp hmem with rfl | hmem2
        · right
          exact ⟨(lookupGroup (p.model_id.getD "") gs).getD [] ++ [p],
            lookupGroup_addIdGroup_same _ p gs, by simp⟩
        · left; exact hmem2
      · by_cases hmm : p.model_id.getD "" = q.model_id.getD ""
        · right
          refine ⟨g ++ [q], ?_, List.mem_append.mpr (Or.inl hpg)⟩
          rw [hmm, lookupGroup_addIdGroup_same _ q gs, ← hmm, hg]
          rfl
        · right
          exact ⟨g, by rw [lookupGroup_addIdGroup_other hmm q gs]; exact hg, hpg⟩
    · rw [if_neg hq]
      apply ih _ _ p hu
      rcases h with hmem | hgs
      · rcases List.mem_cons.mp hmem with rfl | hmem2
        · exact absurd hu hq
        · left; exact hmem2
      · right; exact hgs

theorem idPartition_not_usable_rest :
    ∀ (l : List ProductResult) gs ug (p : ProductResult),
      usableId p = false →
      (p ∈ l ∨ p ∈ ug) →
      p ∈ (l.foldl idStep (gs, ug)).2 := by
  intro l
  induction l with
  | nil =>
    intro gs ug p _ h
    rcases h with h | h
    · simp at h
    · exact h
  | cons q rest ih =>
    intro gs ug p hu h
    rw [List.foldl_cons]
    unfold idStep
    by_cases hq : usableId q = true
    · rw [if_pos hq]
      apply ih _ _ p hu
      rcases h with hmem | hug
      · rcases List.mem_cons.mp hmem with rfl | hmem2
        · rw [hu] at hq
          exact absurd hq (by simp)
        · left; exact hmem2
      · right; exact hug
    · rw [if_neg hq]
      apply ih _ _ p hu
      rcases h with hmem | hug
      · rcases List.mem_cons.mp hmem with rfl | hmem2
        · right; exact List.mem_append.mpr (Or.inr (by simp))
        · left; exact hmem2
      · right; exact List.mem_append.mpr (Or.inl hug)

theorem hash_not_usable {p : ProductResult}
    (h : isHashId (p.model_id.getD "") = true) : usableId p = false := by
  unfold usableId
  rw [h]
  simp

/-- C5 (amended): in the first reconciliation pass a record whose
`model_id` is a 12-character lowercase-hex string never participates in
exact-id grouping (it is sent to the fuzzy pass), and any two records
with equal, *non-empty*, non-hash-shaped `model_id` land in the same id
group; records whose `model_id` is empty or missing also skip exact-id
grouping even though their ids are trivially equal. -/
theorem id_grouping_contract :
    (∀ (l : List ProductResult) (e : String × List ProductResult),
        e ∈ (idPartition l).1 → ∀ p ∈ e.2,
          usableId p = true ∧ p.model_id.getD "" = e.1)
    ∧ (∀ (l : List ProductResult) (p : ProductResult), p ∈ l →
        isHashId (p.model_id.getD "") = true → p ∈ (idPartition l).2)
    ∧ (∀ (l : List ProductResult) (p q : ProductResult), p ∈ l → q ∈ l →
        usableId p = true → p.model_id.getD "" = q.model_id.getD "" →
        ∃ g, (p.model_id.getD "", g) ∈ (idPartition l).1 ∧ p ∈ g ∧ q ∈ g) := by
  refine ⟨?_, ?_, ?_⟩
  · intro l e he p hp
    exact idPartition_groups_sound l [] [] (by simp) e he p hp
  · intro l p hp hhash
    exact idPartition_not_usable_rest l [] [] p (hash_not_usable hhash)
      (Or.inl hp)
  · intro l p q hp hq hu hmm
    have huq : usableId q = true := by
      unfold usableId at hu ⊢
      rw [← hmm]
      exact hu
    obtain ⟨gp, hgp, hpgp⟩ :=
      idPartition_lookup l [] [] p hu (Or.inl hp)
    obtain ⟨gq, hgq, hqgq⟩ :=
      idPartition_lookup l [] [] q huq (Or.inl hq)
    rw [← hmm] at hgq
    rw [hgp] at hgq
    injection hgq with hsame
    refine ⟨gp, lookupGroup_mem hgp, hpgp, ?_⟩
    rw [hsame]
    exact hqgq

/-- C5 counterexample: two records share the `model_id` value `""`, which
is not a 12-character hex string, yet `aggregate_sellers` leaves them in
two separate groups (both fall through to the fuzzy pass and their names
do not match), contradicting the claim that any two records with equal
non-hash `model_id` merge. -/
theorem id_grouping_counterexample :
    ({ name := "alpha", model_id := some "" } : ProductResult).model_id =
      ({ name := "beta", model_id := some "" } : ProductResult).model_id
    ∧ isHashId "" = false
    ∧ aggregateSellers
        [{ name := "alpha", model_id := some "" },
         { name := "beta", model_id := some "" }] =
      [{ name := "alpha", model_id := some "" },
       { name := "beta", model_id := some "" }] :=
  ⟨rfl, rfl, rfl⟩

/-- Witness for C5 at a concrete input: two records with the same real
MPN end up in the same id group. -/
theorem id_grouping_contract_witness :
    ∃ g, (("MPN-1" : String), g) ∈
        (idPartition
          [{ name := "a", model_id := some "MPN-1" },
           { name := "b", model_id := some "MPN-1" }]).1
      ∧ ({ name := "a", model_id := some "MPN-1" } : ProductResult) ∈ g
      ∧ ({ name := "b", model_id := some "MPN-1" } : ProductResult) ∈ g :=
  id_grouping_contract.2.2
    [{ name := "a", model_id := some "MPN-1" },
     { name := "b", model_id := some "MPN-1" }]
    { name := "a", model_id := some "MPN-1" }
    { name := "b", model_id := some "MPN-1" }
    (by decide) (by decide) (by decide) (by decide)

/-! ### Claim C7: seller union, dedup and ordering in `_merge_group` -/

theorem dedupByKeyAux_props {α κ : Type} [DecidableEq κ] (key : α → κ) :
    ∀ (l : List α) (seen : List κ),
      (∀ x ∈ dedupByKeyAux key seen l, key x ∉ seen ∧ x ∈ l)
      ∧ (dedupByKeyAux key seen l).Pairwise (fun a b => key a ≠ key b)
      ∧ (∀ x ∈ l, key x ∈ seen ∨ ∃ y ∈ dedupByKeyAux key seen l,
          key y = key x) := by
  intro l
  induction l with
  | nil =>
    intro seen
    refine ⟨by simp [dedupByKeyAux], by simp [dedupByKeyAux], by simp⟩
  | cons a t ih =>
    intro seen
    unfold dedupByKeyAux
    by_cases hm : key a ∈ seen
    · rw [if_pos hm]
      obtain ⟨ih1, ih2, ih3⟩ := ih seen
      refine ⟨?_, ih2, ?_⟩
      · intro x hx
        obtain ⟨hns, hmem⟩ := ih1 x hx
        exact ⟨hns, List.mem_cons_of_mem _ hmem⟩
      · intro x hx
        rcases List.mem_cons.mp hx with rfl | hx2
        · exact Or.inl hm
        · exact ih3 x hx2
    · rw [if_neg hm]
      obtain ⟨ih1, ih2, ih3⟩ := ih (key a :: seen)
      refine ⟨?_, ?_, ?_⟩
      · intro x hx
        rcases List.mem_cons.mp hx with rfl | hx2
        · exact ⟨hm, by simp⟩
        · obtain ⟨hns, hmem⟩ := ih1 x hx2
          exact ⟨fun hs => hns (List.mem_cons_of_mem _ hs),
            List.mem_cons_of_mem _ hmem⟩
      · rw [List.pairwise_cons]
        refine ⟨?_, ih2⟩
        intro b hb he
        obtain ⟨hns, _⟩ := ih1 b hb
        apply hns
        rw [← he]
        simp
      · intro x hx
        rcases List.mem_cons.mp hx with rfl | hx2
        · exact Or.inr ⟨x, by simp, rfl⟩
        · rcases ih3 x hx2 with hseen | ⟨y, hy, hky⟩
          · rcases List.mem_cons.mp hseen with heq | hseen2
            · exact Or.inr ⟨a, by simp, heq.symm⟩
            · exact Or.inl hseen2
          · exact Or.inr ⟨y, List.mem_cons_of_mem _ hy, hky⟩

theorem boolQLe_total : ∀ x y : Bool × ℚ, boolQLe x y ∨ boolQLe y x := by
  intro x y
  rcases x with ⟨b1, q1⟩
  rcases y with ⟨b2, q2⟩
  unfold boolQLe
  cases b1 <;> cases b2 <;> rcases le_total q1 q2 with h | h <;> simp [h]

theorem boolQLe_trans :
    ∀ x y z : Bool × ℚ, boolQLe x y → boolQLe y z → boolQLe x z := by
  intro x y z h1 h2
  unfold boolQLe at h1 h2 ⊢
  rcases h1 with ⟨hx1, hy1⟩ | ⟨he1, hq1⟩
  · rcases h2 with ⟨hy2, hz2⟩ | ⟨he2, hq2⟩
    · rw [hy1] at hy2
      exact absurd hy2 (by simp)
    · exact Or.inl ⟨hx1, by rw [← he2]; exact hy1⟩
  · rcases h2 with ⟨hy2, hz2⟩ | ⟨he2, hq2⟩
    · exact Or.inl ⟨by rw [he1]; exact hy2, hz2⟩
    · exact Or.inr ⟨he1.trans he2, hq1.trans hq2⟩

theorem sellerLe_total : ∀ s t : Seller, sellerLe s t ∨ sellerLe t s :=
  fun _ _ => boolQLe_total _ _

theorem sellerLe_trans :
    ∀ s t u : Seller, sellerLe s t → sellerLe t u → sellerLe s u :=
  fun _ _ _ => boolQLe_trans _ _ _

/-- C7: for every group of two or more records, the merged seller list
has pairwise-distinct `(domain-of-url, price)` keys, contains a
representative of every member seller's key, contains only sellers coming
from the group, and is sorted ascending by price with null-priced sellers
last. -/
theorem merge_group_sellers (l : List ProductResult) (h : 2 ≤ l.length) :
    ((mergeGroup l).sellers.Pairwise fun s t => sellerKey s ≠ sellerKey t)
    ∧ (∀ p ∈ l, ∀ s ∈ p.sellers, ∃ t ∈ (mergeGroup l).sellers,
        sellerKey t = sellerKey s)
    ∧ (∀ t ∈ (mergeGroup l).sellers, ∃ p ∈ l, t ∈ p.sellers)
    ∧ (mergeGroup l).sellers.Sorted sellerLe := by
  haveI : IsTotal Seller sellerLe := ⟨sellerLe_total⟩
  haveI : IsTrans Seller sellerLe := ⟨sellerLe_trans⟩
  cases l with
  | nil => exact absurd h (by simp)
  | cons base l2 =>
    cases l2 with
    | nil => exact absurd h (by simp)
    | cons x rest =>
      have hs : (mergeGroup (base :: x :: rest)).sellers =
          List.insertionSort sellerLe
            (dedupByKey sellerKey
              ((base :: x :: rest).flatMap (fun p => p.sellers))) := rfl
      obtain ⟨hd1, hd2, hd3⟩ :=
        dedupByKeyAux_props sellerKey
          ((base :: x :: rest).flatMap (fun p => p.sellers)) []
      have hperm :
          List.Perm
            (List.insertionSort sellerLe
              (dedupByKey sellerKey
                ((base :: x :: rest).flatMap (fun p => p.sellers))))
            (dedupByKey sellerKey
              ((base :: x :: rest).flatMap (fun p => p.sellers))) :=
        List.perm_insertionSort _ _
      refine ⟨?_, ?_, ?_, ?_⟩
      · rw [hs]
        rw [hperm.pairwise_iff (fun hne he => hne he.symm)]
        exact hd2
      · intro p hp s hsmem
        rw [hs]
        have hflat : s ∈ (base :: x :: rest).flatMap (fun p => p.sellers) :=
          List.mem_flatMap.mpr ⟨p, hp, hsmem⟩
        rcases hd3 s hflat with habs | ⟨y, hy, hky⟩
        · simp at habs
        · exact ⟨y, hperm.mem_iff.mpr hy, hky⟩
      · intro t ht
        rw [hs] at ht
        obtain ⟨_, hmem⟩ := hd1 t (hperm.mem_iff.mp ht)
        exact List.mem_flatMap.mp hmem
      · rw [hs]
        exact List.sorted_insertionSort _ _

/-- Witness for C7 at a concrete two-record group. -/
theorem merge_group_sellers_witness :
    (mergeGroup
        [{ name := "p",
           sellers := [{ name := "a.com",
                         price := some 5,
                         url := some "https://a.com/x" }] },
         { name := "p",
           sellers := [{ name := "b.com",
                         price := some 3,
                         url := some "https://b.com/y" }] }]).sellers.Sorted
      sellerLe :=
  (merge_group_sellers _ (by decide)).2.2.2

/-! ### Claim C4: formatting cap and sort order -/

theorem multiLe_total : ∀ p q : ProductResult, multiLe p q ∨ multiLe q p := by
  intro p q
  unfold multiLe
  rcases lt_trichotomy (p.category.getD "") (q.category.getD "") with hc | hc | hc
  · exact Or.inl (Or.inl hc)
  · rcases lt_trichotomy (p.brand.getD "") (q.brand.getD "") with hb | hb | hb
    · exact Or.inl (Or.inr ⟨hc, Or.inl hb⟩)
    · rcases boolQLe_total (bestPriceKey p) (bestPriceKey q) with hq | hq
      · exact Or.inl (Or.inr ⟨hc, Or.inr ⟨hb, hq⟩⟩)
      · exact Or.inr (Or.inr ⟨hc.symm, Or.inr ⟨hb.symm, hq⟩⟩)
    · exact Or.inr (Or.inr ⟨hc.symm, Or.inl hb⟩)
  · exact Or.inr (Or.inl hc)

theorem multiLe_trans :
    ∀ p q r : ProductResult, multiLe p q → multiLe q r → multiLe p r := by
  intro p q r h1 h2
  unfold multiLe at h1 h2 ⊢
  rcases h1 with hc1 | ⟨hc1, hb1⟩
  · rcases h2 with hc2 | ⟨hc2, _⟩
    · exact Or.inl (hc1.trans hc2)
    · refine Or.inl ?_
      rw [← hc2]
      exact hc1
  · rcases h2 with hc2 | ⟨hc2, hb2⟩
    · refine Or.inl ?_
      rw [hc1]
      exact hc2
    · refine Or.inr ⟨hc1.trans hc2, ?_⟩
      rcases hb1 with hb1 | ⟨hbe1, hq1⟩
      · rcases hb2 with hb2 | ⟨hbe2, _⟩
        · exact Or.inl (hb1.trans hb2)
        · refine Or.inl ?_
          rw [← hbe2]
          exact hb1
      · rcases hb2 with hb2 | ⟨hbe2, hq2⟩
        · refine Or.inl ?_
          rw [hbe1]
          exact hb2
        · exact Or.inr ⟨hbe1.trans hbe2, boolQLe_trans _ _ _ hq1 hq2⟩

/-- C4 (amended): `format_results` returns at most 20 records; in
`price_comparison` and `single_product` modes (and any other non-multi
mode) the output is sorted ascending by the record's *first* non-null
seller price with no-price records last (not by the cheapest price — the
key is `_best_price`, which scans sellers in stored order), and
`multi_product` sorts by `(category, brand, first non-null price)`. -/
theorem format_results_contract (results : List ProductResult) (ft : String) :
    (formatResults results ft).products.length ≤ 20
    ∧ (ft = "price_comparison" ∨ ft = "single_product" →
        ((formatResults results ft).products.map (fun f => f.product)).Sorted
          productPriceLe)
    ∧ (ft = "multi_product" →
        ((formatResults results ft).products.map (fun f => f.product)).Sorted
          multiLe) := by
  haveI : IsTotal ProductResult productPriceLe :=
    ⟨fun _ _ => boolQLe_total _ _⟩
  haveI : IsTrans ProductResult productPriceLe :=
    ⟨fun _ _ _ => boolQLe_trans _ _ _⟩
  haveI : IsTotal ProductResult multiLe := ⟨multiLe_total⟩
  haveI : IsTrans ProductResult multiLe := ⟨multiLe_trans⟩
  have hprod : (formatResults results ft).products =
      (sortCapped results ft).map (fun p =>
        { product := p
          source_count := (sellerDomains p).card
          best_price := bestPriceValue p
          best_currency := bestCurrency p }) := rfl
  have hmap : ((formatResults results ft).products.map (fun f => f.product)) =
      sortCapped results ft := by
    rw [hprod, List.map_map]
    exact List.map_id _
  refine ⟨?_, ?_, ?_⟩
  · rw [hprod, List.length_map]
    unfold sortCapped
    split_ifs <;>
      rw [List.length_insertionSort, List.length_take] <;>
      exact min_le_left _ _
  · intro hft
    have hsc : sortCapped results ft =
        List.insertionSort productPriceLe (results.take 20) := by
      unfold sortCapped
      rcases hft with rfl | rfl
      · rw [if_pos rfl]
      · rw [if_neg (by decide), if_neg (by decide)]
    rw [hmap, hsc]
    exact List.sorted_insertionSort _ _
  · intro hft
    have hsc : sortCapped results ft =
        List.insertionSort multiLe (results.take 20) := by
      unfold sortCapped
      subst hft
      rw [if_neg (by decide), if_pos rfl]
    rw [hmap, hsc]
    exact List.sorted_insertionSort _ _

/-- C4 counterexample: with record "a" whose sellers are stored at prices
10 then 5 (cheapest 5) and record "b" at price 7 (cheapest 7),
`price_comparison` formatting returns "b" before "a": the reported
`best_price` column (the `_best_price_value` minimum) reads `[7, 5]`,
which is not ascending — the sort key is the *first* non-null seller
price, not the cheapest. -/
theorem format_results_counterexample :
    ((formatResults
        [{ name := "a",
           sellers := [{ name := "x.com",
                         price := some 10,
                         url := some "https://x.com/a" },
                       { name := "y.com",
                         price := some 5,
                         url := some "https://y.com/a" }] },
         { name := "b",
           sellers := [{ name := "z.com",
                         price := some 7,
                         url := some "https://z.com/b" }] }]
        "price_comparison").products.map (fun f => f.best_price))
      = [some 7, some 5]
    ∧ ¬((7 : ℚ) ≤ 5) := by
  refine ⟨by rfl, by norm_num⟩

/-- Witness for C4 at a concrete input and mode. -/
theorem format_results_contract_witness :
    (formatResults [({ name := "a" } : ProductResult)]
        "price_comparison").products.length ≤ 20
    ∧ ((formatResults [({ name := "a" } : ProductResult)]
        "price_comparison").products.map (fun f => f.product)).Sorted
        productPriceLe :=
  ⟨(format_results_contract [{ name := "a" }] "price_comparison").1,
   (format_results_contract [{ name := "a" }] "price_comparison").2.1
     (Or.inl rfl)⟩

/-! ### Claims C2 and C3: strategy store -/

theorem lookup_setRow_found {domain : String} {r0 r : InstructionRow} :
    ∀ {store : StrategyStore}, lookupStore domain store = some r0 →
      lookupStore domain (setRow domain r store) = some r := by
  intro store
  induction store with
  | nil => intro h; simp [lookupStore] at h
  | cons e rest ih =>
    intro h
    rcases e with ⟨d, r1⟩
    unfold setRow
    by_cases hd : d = domain
    · rw [if_pos hd]
      unfold lookupStore
      rw [if_pos hd]
    · rw [if_neg hd]
      unfold lookupStore
      rw [if_neg hd]
      unfold lookupStore at h
      rw [if_neg hd] at h
      exact ih h

theorem lookup_append_new {domain : String} {r : InstructionRow} :
    ∀ {store : StrategyStore}, lookupStore domain store = none →
      lookupStore domain (store ++ [(domain, r)]) = some r := by
  intro store
  induction store with
  | nil =>
    intro _
    rw [List.nil_append]
    unfold lookupStore
    rw [if_pos rfl]
  | cons e rest ih =>
    intro h
    rcases e with ⟨d, r0⟩
    unfold lookupStore at h
    by_cases hd : d = domain
    · rw [if_pos hd] at h
      exact absurd h (by simp)
    · rw [if_neg hd] at h
      rw [List.cons_append]
      unfold lookupStore
      rw [if_neg hd]
      exact ih h

theorem update_rate_lookup {domain : String} {r : InstructionRow}
    (success : Bool) (t : ℚ) {store : StrategyStore}
    (h : lookupStore domain store = some r) :
    lookupStore domain (updateSuccessRate domain success t store) =
      some { r with
        success_rate :=
          EMA_ALPHA * (if success then 1 else 0)
            + (1 - EMA_ALPHA) * r.success_rate
        updated_at := t } := by
  unfold updateSuccessRate
  rw [h]
  exact lookup_setRow_found h

theorem getCached_eval {domain : String} {now : ℚ} {store : StrategyStore}
    {r : InstructionRow} (h : lookupStore domain store = some r) :
    getCachedStrategy domain now store =
      if now - r.created_at > 30 then none
      else if r.success_rate < 0.5 then none
      else some r.strategy := by
  unfold getCachedStrategy
  rw [h]

/-- C2 (amended): `save(domain, strategy)` upserts: afterwards a row for
the domain exists holding the new strategy with `success_rate = 1.0` and
`updated_at = now`.  On the insert path `created_at` is also set to `now`
and an immediate load hits; on the update path `created_at` is *not*
refreshed, so a save over a row created more than 30 days ago remains a
TTL cache miss. -/
theorem save_strategy_contract (domain : String)
    (strategy : ScrapingStrategy) (now : ℚ) (store : StrategyStore) :
    (∃ r, lookupStore domain (saveStrategy domain strategy now store) = some r
      ∧ r.success_rate = 1 ∧ r.strategy = strategy ∧ r.updated_at = now
      ∧ (lookupStore domain store = none → r.created_at = now)
      ∧ (∀ r0, lookupStore domain store = some r0 →
          r.created_at = r0.created_at))
    ∧ (lookupStore domain store = none →
        getCachedStrategy domain now (saveStrategy domain strategy now store)
          = some strategy) := by
  cases hl : lookupStore domain store with
  | none =>
    have hlk : lookupStore domain (saveStrategy domain strategy now store) =
        some { strategy := strategy, success_rate := 1,
               created_at := now, updated_at := now } := by
      unfold saveStrategy
      rw [hl]
      exact lookup_append_new hl
    constructor
    · refine ⟨_, hlk, rfl, rfl, rfl, fun _ => rfl, ?_⟩
      intro r0 h0
      exact absurd h0 (by simp)
    · intro _
      rw [getCached_eval hlk]
      rw [if_neg (by norm_num), if_neg (by norm_num)]
  | some r0 =>
    have hlk : lookupStore domain (saveStrategy domain strategy now store) =
        some { r0 with
                 strategy := strategy
                 success_rate := 1
                 updated_at := now } := by
      unfold saveStrategy
      rw [hl]
      exact lookup_setRow_found hl
    constructor
    · refine ⟨_, hlk, rfl, rfl, rfl, ?_, ?_⟩
      · intro hnone
        exact absurd hnone (by simp)
      · intro r1 h1
        injection h1 with h2
        rw [← h2]
    · intro hnone
      exact absurd hnone (by simp)

/-- C2 counterexample: the claim says a record is never a logical cache
miss immediately after `save`, but `save_strategy` does not refresh
`created_at` on the update path: saving at day 40 over a row created at
day 0 leaves `created_at = 0`, and the immediate load is a TTL miss. -/
theorem save_strategy_counterexample :
    getCachedStrategy "shop.example" 40
      (saveStrategy "shop.example" { product_container := ".p" } 40
        [("shop.example",
          { strategy := { product_container := ".old" },
            success_rate := 1, created_at := 0, updated_at := 0 })]) =
      none := by
  have hlk :
      lookupStore "shop.example"
        (saveStrategy "shop.example" { product_container := ".p" } 40
          [("shop.example",
            { strategy := { product_container := ".old" },
              success_rate := 1, created_at := 0, updated_at := 0 })]) =
      some { strategy := { product_container := ".p" },
             success_rate := 1, created_at := 0, updated_at := 40 } := rfl
  rw [getCached_eval hlk]
  rw [if_pos (by norm_num)]

/-- Witness for C2 at a concrete store: an inserting save is immediately
loadable. -/
theorem save_strategy_contract_witness :
    getCachedStrategy "shop.example" 5
      (saveStrategy "shop.example" { product_container := ".p" } 5 []) =
      some { product_container := ".p" } :=
  (save_strategy_contract "shop.example" { product_container := ".p" } 5 []).2
    rfl

/-- C3: starting from a stored success rate of 1.0, three consecutive
failed outcomes drive the rate through 0.7, 0.49 and 0.343 via the EMA
`rate' = 0.3·outcome + 0.7·rate`; 0.343 < 0.5, so `load` then reports the
strategy absent even though the row still exists. -/
theorem ema_decay_contract (domain : String) (store : StrategyStore)
    (r : InstructionRow) (t1 t2 t3 now : ℚ)
    (h : lookupStore domain store = some r) (h1 : r.success_rate = 1) :
    ∃ r3,
      lookupStore domain
        (updateSuccessRate domain false t3
          (updateSuccessRate domain false t2
            (updateSuccessRate domain false t1 store))) = some r3
      ∧ (∃ ra, lookupStore domain (updateSuccessRate domain false t1 store) =
          some ra ∧ ra.success_rate = 0.7)
      ∧ (∃ rb, lookupStore domain
          (updateSuccessRate domain false t2
            (updateSuccessRate domain false t1 store)) = some rb
          ∧ rb.success_rate = 0.49)
      ∧ r3.success_rate = 0.343
      ∧ r3.success_rate < 0.5
      ∧ getCachedStrategy domain now
          (updateSuccessRate domain false t3
            (updateSuccessRate domain false t2
              (updateSuccessRate domain false t1 store))) = none := by
  obtain ⟨ra, e1, hra⟩ : ∃ ra,
      lookupStore domain (updateSuccessRate domain false t1 store) = some ra
      ∧ ra.success_rate = 0.7 := by
    refine ⟨_, update_rate_lookup false t1 h, ?_⟩
    show EMA_ALPHA * (if false then (1 : ℚ) else 0)
      + (1 - EMA_ALPHA) * r.success_rate = 0.7
    rw [h1]
    norm_num [EMA_ALPHA]
  obtain ⟨rb, e2, hrb⟩ : ∃ rb,
      lookupStore domain
        (updateSuccessRate domain false t2
          (updateSuccessRate domain false t1 store)) = some rb
      ∧ rb.success_rate = 0.49 := by
    refine ⟨_, update_rate_lookup false t2 e1, ?_⟩
    show EMA_ALPHA * (if false then (1 : ℚ) else 0)
      + (1 - EMA_ALPHA) * ra.success_rate = 0.49
    rw [hra]
    norm_num [EMA_ALPHA]
  obtain ⟨rc, e3, hrc⟩ : ∃ rc,
      lookupStore domain
        (updateSuccessRate domain false t3
          (updateSuccessRate domain false t2
            (updateSuccessRate domain false t1 store))) = some rc
      ∧ rc.success_rate = 0.343 := by
    refine ⟨_, update_rate_lookup false t3 e2, ?_⟩
    show EMA_ALPHA * (if false then (1 : ℚ) else 0)
      + (1 - EMA_ALPHA) * rb.success_rate = 0.343
    rw [hrb]
    norm_num [EMA_ALPHA]
  refine ⟨rc, e3, ⟨ra, e1, hra⟩, ⟨rb, e2, hrb⟩, hrc, ?_, ?_⟩
  · rw [hrc]
    norm_num
  · rw [getCached_eval e3]
    by_cases httl : now - rc.created_at > 30
    · rw [if_pos httl]
    · rw [if_neg httl, if_pos (by rw [hrc]; norm_num)]

/-- Witness for C3 at a concrete store. -/
theorem ema_decay_contract_witness :
    getCachedStrategy "shop.example" 1
      (updateSuccessRate "shop.example" false 3
        (updateSuccessRate "shop.example" false 2
          (updateSuccessRate "shop.example" false 1
            [("shop.example",
              { strategy := { product_container := ".p" },
                success_rate := 1, created_at := 0, updated_at := 0 })]))) =
      none := by
  obtain ⟨r3, _, _, _, _, _, hnone⟩ :=
    ema_decay_contract "shop.example"
      [("shop.example",
        { strategy := { product_container := ".p" },
          success_rate := 1, created_at := 0, updated_at := 0 })]
      { strategy := { product_container := ".p" },
        success_rate := 1, created_at := 0, updated_at := 0 }
      1 2 3 1 rfl rfl
  exact hnone

/-! ### Claim C9: pattern-builder key skipping -/

theorem buildGo_no_price :
    ∀ (l : List (String × String)) (seen : List String),
      ∀ t ∈ buildGo seen l, t.2.1 ≠ "price" := by
  intro l
  induction l with
  | nil => intro seen t ht; simp [buildGo] at ht
  | cons ku rest ih =>
    intro seen t ht
    rcases ku with ⟨key, unit⟩
    unfold buildGo at ht
    by_cases hskip : key ∈ seen ∨ key = "price"
    · rw [if_pos hskip] at ht
      exact ih seen t ht
    · rw [if_neg hskip] at ht
      push_neg at hskip
      cases hsp : lookupTable key SPECIAL_PATTERNS with
      | some tp =>
        rcases tp with ⟨tmpl, gi⟩
        rw [hsp] at ht
        rcases List.mem_cons.mp ht with rfl | ht2
        · exact hskip.2
        · exact ih _ t ht2
      | none =>
        rw [hsp] at ht
        by_cases hu : unit ≠ ""
        · rw [if_pos hu] at ht
          cases hut : lookupTable unit UNIT_PATTERN_TEMPLATES with
          | some tp =>
            rcases tp with ⟨tmpl, gi⟩
            rw [hut] at ht
            rcases List.mem_cons.mp ht with rfl | ht2
            · exact hskip.2
            · exact ih _ t ht2
          | none =>
            rw [hut] at ht
            exact ih _ t ht
        · rw [if_neg hu] at ht
          exact ih _ t ht

theorem buildGo_skipped {key : String}
    (hsp : lookupTable key SPECIAL_PATTERNS = none) :
    ∀ (l : List (String × String)) (seen : List String),
      (∀ u, (key, u) ∈ l → lookupTable u UNIT_PATTERN_TEMPLATES = none) →
      ∀ t ∈ buildGo seen l, t.2.1 ≠ key := by
  intro l
  induction l with
  | nil => intro seen _ t ht; simp [buildGo] at ht
  | cons ku rest ih =>
    intro seen hunit t ht
    rcases ku with ⟨k, unit⟩
    have hrest : ∀ u, (key, u) ∈ rest →
        lookupTable u UNIT_PATTERN_TEMPLATES = none :=
      fun u hu => hunit u (List.mem_cons_of_mem _ hu)
    unfold buildGo at ht
    by_cases hskip : k ∈ seen ∨ k = "price"
    · rw [if_pos hskip] at ht
      exact ih seen hrest t ht
    · rw [if_neg hskip] at ht
      cases hspk : lookupTable k SPECIAL_PATTERNS with
      | some tp =>
        rcases tp with ⟨tmpl, gi⟩
        rw [hspk] at ht
        rcases List.mem_cons.mp ht with rfl | ht2
        · intro hk
          have hk2 : k = key := hk
          rw [hk2, hsp] at hspk
          exact absurd hspk (by simp)
        · exact ih _ hrest t ht2
      | none =>
        rw [hspk] at ht
        by_cases hu : unit ≠ ""
        · rw [if_pos hu] at ht
          cases hut : lookupTable unit UNIT_PATTERN_TEMPLATES with
          | some tp =>
            rcases tp with ⟨tmpl, gi⟩
            rw [hut] at ht
            rcases List.mem_cons.mp ht with rfl | ht2
            · intro hk
              have hk2 : k = key := hk
              have := hunit unit (by rw [← hk2]; simp)
              rw [hut] at this
              exact absurd this (by simp)
            · exact ih _ hrest t ht2
          | none =>
            rw [hut] at ht
            exact ih _ hrest t ht
        · rw [if_neg hu] at ht
          exact ih _ hrest t ht

/-- C9: for every input criteria mapping, the pattern builder emits no
pattern for the key `"price"`, and emits no pattern for a key that is
absent from the irregular-pattern table and whose declared unit has no
entry in the unit-template table — such keys are silently skipped (the
builder is a total function). -/
theorem build_patterns_contract :
    (∀ criteria : Option (List (String × String)),
        ∀ t ∈ buildExtractionPatterns criteria, t.2.1 ≠ "price")
    ∧ (∀ (criteria : List (String × String)) (key : String),
        lookupTable key SPECIAL_PATTERNS = none →
        (∀ u, (key, u) ∈ criteria →
          lookupTable u UNIT_PATTERN_TEMPLATES = none) →
        ∀ t ∈ buildExtractionPatterns (some criteria), t.2.1 ≠ key) := by
  constructor
  · intro criteria t ht
    exact buildGo_no_price _ [] t ht
  · intro criteria key hsp hu t ht
    exact buildGo_skipped hsp criteria [] hu t ht

/-- Witness for C9 at a concrete criteria mapping: `price` is dropped
while `noise_level` (unit dB) is emitted, and the emitted entry's key is
not `"price"`. -/
theorem build_patterns_contract_witness :
    (("(\\d+)\\s*db\\b", "noise_level", 0) : String × String × Nat).2.1
      ≠ "price" :=
  build_patterns_contract.1
    (some [("price", "dB"), ("noise_level", "dB")]) _ (by decide)

/-! ### Claim C8: CSS-candidate strategy discovery -/

theorem discoverCssLoop_spec :
    ∀ (cands : List String) (page : Page)
      (criteria : Option (List (String × String))) (st : ScrapingStrategy),
      discoverCssLoop page criteria cands = some st →
      ∃ pre post, cands = pre ++ st.product_container :: post
        ∧ 2 ≤ (queryAll page st.product_container).length
        ∧ st.name_selector =
            probeField ((queryAll page st.product_container).take 3)
              NAME_CANDIDATES
        ∧ st.name_selector ≠ ""
        ∧ ∀ s ∈ pre, (queryAll page s).length < 2
            ∨ probeField ((queryAll page s).take 3) NAME_CANDIDATES = "" := by
  intro cands
  induction cands with
  | nil => intro page criteria st h; simp [discoverCssLoop] at h
  | cons c rest ih =>
    intro page criteria st h
    unfold discoverCssLoop at h
    by_cases h2 : (queryAll page c).length < 2
    · rw [if_pos h2] at h
      obtain ⟨pre, post, he, hlen, hns, hne, hpre⟩ := ih page criteria st h
      refine ⟨c :: pre, post, by rw [he, List.cons_append], hlen, hns, hne, ?_⟩
      intro s hs
      rcases List.mem_cons.mp hs with rfl | hs2
      · exact Or.inl h2
      · exact hpre s hs2
    · rw [if_neg h2] at h
      by_cases h3 : probeField ((queryAll page c).take 3) NAME_CANDIDATES = ""
      · rw [if_pos h3] at h
        obtain ⟨pre, post, he, hlen, hns, hne, hpre⟩ := ih page criteria st h
        refine ⟨c :: pre, post, by rw [he, List.cons_append], hlen, hns, hne, ?_⟩
        intro s hs
        rcases List.mem_cons.mp hs with rfl | hs2
        · exact Or.inr h3
        · exact hpre s hs2
      · rw [if_neg h3] at h
        injection h with h4
        refine ⟨[], rest, by rw [← h4]; rfl, ?_, ?_, ?_, by simp⟩
        · rw [← h4]
          exact le_of_not_lt h2
        · rw [← h4]
        · rw [← h4]
          exact h3

theorem discoverByPricePattern_method :
    ∀ (page : Page) (st : ScrapingStrategy),
      discoverByPricePattern page = some st →
      st.discovery_method = "price_pattern" := by
  intro page st h
  unfold discoverByPricePattern at h
  split at h
  · exact absurd h (by simp)
  · split at h
    · exact absurd h (by simp)
    · split at h
      · exact absurd h (by simp)
      · injection h with h4
        rw [← h4]

/-- C8: every strategy `discover_strategy` returns with discovery method
`"css_candidates"` comes from the candidate loop: its container selector
is one of the ordered candidates and matched at least 2 elements on the
page, its name selector (probed over the first 3 matched containers) is
non-empty, and every candidate tried before it was skipped for matching
fewer than 2 elements or for yielding no name selector. -/
theorem discover_strategy_css_contract :
    ∀ (page : Page) (q : String)
      (criteria : Option (List (String × String))) (st : ScrapingStrategy),
      discoverStrategy page q criteria = some st →
      st.discovery_method = "css_candidates" →
      ∃ pre post,
        CONTAINER_CANDIDATES = pre ++ st.product_container :: post
        ∧ 2 ≤ (queryAll page st.product_container).length
        ∧ st.name_selector =
            probeField ((queryAll page st.product_container).take 3)
              NAME_CANDIDATES
        ∧ st.name_selector ≠ ""
        ∧ ∀ s ∈ pre, (queryAll page s).length < 2
            ∨ probeField ((queryAll page s).take 3) NAME_CANDIDATES = "" := by
  intro page q criteria st h hmethod
  unfold discoverStrategy at h
  cases hcss : discoverCssLoop page criteria CONTAINER_CANDIDATES with
  | some st0 =>
    rw [hcss] at h
    injection h with h2
    rw [h2] at hcss
    exact discoverCssLoop_spec _ page criteria st hcss
  | none =>
    rw [hcss] at h
    have hpp := discoverByPricePattern_method page st h
    rw [hpp] at hmethod
    exact absurd hmethod (by decide)

/-- Witness for C8 on the sample page: `.product-card` is accepted with
name selector `h2 a`, earlier candidates having matched fewer than 2
elements. -/
theorem discover_strategy_css_contract_witness :
    ∃ pre post,
      CONTAINER_CANDIDATES = pre ++ sampleStrategy.product_container :: post
      ∧ 2 ≤ (queryAll samplePage sampleStrategy.product_container).length
      ∧ sampleStrategy.name_selector =
          probeField
            ((queryAll samplePage sampleStrategy.product_container).take 3)
            NAME_CANDIDATES
      ∧ sampleStrategy.name_selector ≠ ""
      ∧ ∀ s ∈ pre, (queryAll samplePage s).length < 2
          ∨ probeField ((queryAll samplePage s).take 3) NAME_CANDIDATES
            = "" :=
  discover_strategy_css_contract samplePage "" none sampleStrategy
    (by rfl) (by rfl)

/-! ### Claim C10: extracted records always carry a model id -/

theorem dropWhile_head_false {p : Char → Bool} :
    ∀ {l : List Char} {c : Char} {t : List Char},
      l.dropWhile p = c :: t → p c = false := by
  intro l
  induction l with
  | nil => intro c t h; simp at h
  | cons a r ih =>
    intro c t h
    rw [List.dropWhile_cons] at h
    by_cases hp : p a
    · rw [if_pos hp] at h
      exact ih h
    · rw [if_neg hp] at h
      injection h with h1 _
      rw [← h1]
      cases hpa : p a
      · rfl
      · exact absurd hpa hp

theorem exists_non_ws_of_strip {t : List Char} (h : stripChars t ≠ []) :
    ∃ c ∈ stripChars t, isWs c = false := by
  unfold stripChars at *
  cases hy : (t.dropWhile isWs).reverse.dropWhile isWs with
  | nil =>
    rw [hy] at h
    simp at h
  | cons c r =>
    refine ⟨c, ?_, dropWhile_head_false hy⟩
    simp

theorem mem_dropWhile_of_not {p : Char → Bool} {x : Char}
    (hx : p x = false) :
    ∀ {l : List Char}, x ∈ l → x ∈ l.dropWhile p := by
  intro l
  induction l with
  | nil => intro h; simp at h
  | cons a r ih =>
    intro hm
    rw [List.dropWhile_cons]
    by_cases hp : p a
    · rw [if_pos hp]
      rcases List.mem_cons.mp hm with rfl | hm2
      · rw [hx] at hp
        exact absurd hp (by simp)
      · exact ih hm2
    · rw [if_neg hp]
      exact hm

theorem mem_stripChars_of_not_ws {x : Char} (hx : isWs x = false)
    {l : List Char} (hm : x ∈ l) : x ∈ stripChars l := by
  unfold stripChars
  rw [List.mem_reverse]
  apply mem_dropWhile_of_not hx
  rw [List.mem_reverse]
  exact mem_dropWhile_of_not hx hm

theorem beq_false_of_toNat_ne {x d : Char} (h : x.toNat ≠ d.toNat) :
    (x == d) = false := by
  cases hb : x == d
  · rfl
  · exact absurd (congrArg Char.toNat (beq_iff_eq.mp hb)) h

theorem isWs_false_of_ge {x : Char} (h : 65 ≤ x.toNat) : isWs x = false := by
  unfold isWs
  rw [beq_false_of_toNat_ne (by rw [show (' ' : Char).toNat = 32 from rfl]; omega),
    beq_false_of_toNat_ne (by rw [show ('\t' : Char).toNat = 9 from rfl]; omega),
    beq_false_of_toNat_ne (by rw [show ('\n' : Char).toNat = 10 from rfl]; omega),
    beq_false_of_toNat_ne (by rw [show ('\x0d' : Char).toNat = 13 from rfl]; omega),
    beq_false_of_toNat_ne (by rw [show ('\x0b' : Char).toNat = 11 from rfl]; omega),
    beq_false_of_toNat_ne (by rw [show ('\x0c' : Char).toNat = 12 from rfl]; omega)]
  rfl

theorem isWs_lowerChar (c : Char) : isWs (lowerChar c) = isWs c := by
  unfold lowerChar
  by_cases h : ('A' ≤ c && c ≤ 'Z') = true
  · rw [if_pos h]
    rw [Bool.and_eq_true] at h
    have h1 : 'A' ≤ c := of_decide_eq_true h.1
    have h2 : c ≤ 'Z' := of_decide_eq_true h.2
    have hA : 65 ≤ c.toNat := by rw [Char.le_def] at h1; exact h1
    have hZ : c.toNat ≤ 90 := by rw [Char.le_def] at h2; exact h2
    have hvalid : (c.toNat + 32).isValidChar := Or.inl (by omega)
    have hofnat : (Char.ofNat (c.toNat + 32)).toNat = c.toNat + 32 := by
      unfold Char.ofNat
      exact dif_pos hvalid ▸ rfl
    rw [isWs_false_of_ge (by rw [hofnat]; omega), isWs_false_of_ge hA]
  · rw [if_neg h]

theorem string_ne_empty_data {s : String} (h : s ≠ "") : s.data ≠ [] := by
  intro hd
  apply h
  cases s with
  | mk l =>
    simp at hd
    rw [hd]

theorem hashKey_ne_empty {b : Option String} {name : String}
    (h1 : name ≠ "") (h2 : ∃ tl : List Char, name = ⟨stripChars tl⟩) :
    hashKeyOf b name ≠ "" := by
  obtain ⟨tl, htl⟩ := h2
  have hdata : name.data = stripChars tl := by rw [htl]
  have hne : stripChars tl ≠ [] := by
    rw [← hdata]
    exact string_ne_empty_data h1
  obtain ⟨c, hc, hcw⟩ := exists_non_ws_of_strip hne
  have hcname : c ∈ name.data := by rw [hdata]; exact hc
  have hcapp : c ∈ (b.getD "" ++ name).data := by
    rw [String.data_append]
    exact List.mem_append.mpr (Or.inr hcname)
  have hclow : lowerChar c ∈ (pyLower (b.getD "" ++ name)).data :=
    List.mem_map_of_mem lowerChar hcapp
  have hlw : isWs (lowerChar c) = false := by
    rw [isWs_lowerChar]
    exact hcw
  have hmem : lowerChar c ∈ stripChars (pyLower (b.getD "" ++ name)).data :=
    mem_stripChars_of_not_ws hlw hclow
  intro hcontra
  unfold hashKeyOf pyStrip at hcontra
  have hd : stripChars (pyLower (b.getD "" ++ name)).data = [] := by
    have := congrArg String.data hcontra
    exact this
  rw [hd] at hmem
  simp at hmem

theorem nameOf_stripped {container : Elem} {strategy : ScrapingStrategy}
    (h : nameOf container strategy ≠ "") :
    ∃ tl, nameOf container strategy = ⟨stripChars tl⟩ := by
  unfold nameOf at *
  by_cases hsel : strategy.name_selector ≠ ""
  · rw [if_pos hsel] at h ⊢
    cases hq : querySel container strategy.name_selector with
    | none =>
      rw [hq] at h
      exact absurd rfl h
    | some el =>
      exact ⟨(Elem.textOf el).data, rfl⟩
  · rw [if_neg hsel] at h
    exact absurd rfl h

theorem modelIdOf_spec {container : Elem} {strategy : ScrapingStrategy}
    {digest : String → String}
    (hname : nameOf container strategy ≠ "")
    (hdig : ∀ s, 12 ≤ (digest s).length
      ∧ (digest s).data.all isHexLower = true) :
    (∃ m, modelIdOf container strategy digest = some m ∧ m ≠ "")
    ∧ ((mpnRawOf container strategy = none
        ∨ mpnRawOf container strategy = some "") →
      ∃ m, modelIdOf container strategy digest = some m
        ∧ m.length = 12 ∧ m.data.all isHexLower = true) := by
  have hkey : hashKeyOf (brandOf container strategy)
      (nameOf container strategy) ≠ "" :=
    hashKey_ne_empty hname (nameOf_stripped hname)
  have hfb : modelIdFallback container strategy digest =
      some ⟨(digest (hashKeyOf (brandOf container strategy)
        (nameOf container strategy))).data.take 12⟩ := by
    unfold modelIdFallback
    rw [if_pos hkey]
  have hlen12 : ((⟨(digest (hashKeyOf (brandOf container strategy)
      (nameOf container strategy))).data.take 12⟩ : String)).length = 12 := by
    show ((digest (hashKeyOf (brandOf container strategy)
      (nameOf container strategy))).data.take 12).length = 12
    rw [List.length_take]
    exact min_eq_left (hdig _).1
  have hhex : ((⟨(digest (hashKeyOf (brandOf container strategy)
      (nameOf container strategy))).data.take 12⟩ : String)).data.all
        isHexLower = true := by
    show ((digest (hashKeyOf (brandOf container strategy)
      (nameOf container strategy))).data.take 12).all isHexLower = true
    rw [List.all_eq_true]
    intro x hx
    have := List.all_eq_true.mp (hdig (hashKeyOf (brandOf container strategy)
      (nameOf container strategy))).2 x (List.mem_of_mem_take hx)
    exact this
  have hfbne : (⟨(digest (hashKeyOf (brandOf container strategy)
      (nameOf container strategy))).data.take 12⟩ : String) ≠ "" := by
    intro hcontra
    have := congrArg String.length hcontra
    rw [hlen12] at this
    exact absurd this (by decide)
  unfold modelIdOf
  by_cases ht : (mpnRawOf container strategy).getD "" ≠ ""
  · rw [if_pos ht]
    cases hmpn : mpnRawOf container strategy with
    | none =>
      rw [hmpn] at ht
      exact absurd rfl ht
    | some m =>
      rw [hmpn] at ht
      refine ⟨⟨m, rfl, ht⟩, ?_⟩
      rintro (h | h)
      · exact absurd h (by simp)
      · injection h with h2
        exact absurd h2 ht
  · rw [if_neg ht]
    rw [hfb]
    exact ⟨⟨_, rfl, hfbne⟩, fun _ => ⟨_, rfl, hlen12, hhex⟩⟩

/-- C10: every record emitted by the field extractor has a non-null,
non-empty `model_id` (given that the digest capability returns at least
12 lowercase-hex characters, as `hashlib.md5(...).hexdigest()` does);
moreover when the MPN selector yields no text the `model_id` is exactly
the synthesized 12-character lowercase-hex placeholder, non-empty because
the extracted name is required to be non-empty. -/
theorem extractor_model_id_contract :
    (∀ (page : Page) (strategy : ScrapingStrategy) (baseUrl : String)
        (urljoinF : String → String → String) (digest : String → String)
        (patterns : List ((String → Option String) × String)),
      (∀ s, 12 ≤ (digest s).length
        ∧ (digest s).data.all isHexLower = true) →
      ∀ p ∈ extractWithStrategy page strategy baseUrl urljoinF digest
          patterns,
        ∃ m, p.model_id = some m ∧ m ≠ "")
    ∧ (∀ (container : Elem) (strategy : ScrapingStrategy)
        (baseUrl domain : String) (urljoinF : String → String → String)
        (digest : String → String)
        (patterns : List ((String → Option String) × String))
        (p : ProductResult),
      (∀ s, 12 ≤ (digest s).length
        ∧ (digest s).data.all isHexLower = true) →
      extractSingleProduct container strategy baseUrl domain urljoinF digest
        patterns = some p →
      (mpnRawOf container strategy = none
        ∨ mpnRawOf container strategy = some "") →
      ∃ m, p.model_id = some m ∧ m.length = 12
        ∧ m.data.all isHexLower = true) := by
  have hsingle : ∀ (container : Elem) (strategy : ScrapingStrategy)
      (baseUrl domain : String) (urljoinF : String → String → String)
      (digest : String → String)
      (patterns : List ((String → Option String) × String))
      (p : ProductResult),
      extractSingleProduct container strategy baseUrl domain urljoinF digest
        patterns = some p →
      nameOf container strategy ≠ ""
      ∧ p.model_id = modelIdOf container strategy digest := by
    intro container strategy baseUrl domain urljoinF digest patterns p h
    unfold extractSingleProduct at h
    by_cases hn : nameOf container strategy = ""
    · rw [if_pos hn] at h
      exact absurd h (by simp)
    · rw [if_neg hn] at h
      injection h with h2
      exact ⟨hn, by rw [← h2]⟩
  constructor
  · intro page strategy baseUrl urljoinF digest patterns hdig p hp
    obtain ⟨c, _, hc⟩ := List.mem_filterMap.mp hp
    obtain ⟨hn, hmid⟩ := hsingle c strategy baseUrl _ urljoinF digest
      patterns p hc
    obtain ⟨⟨m, hm1, hm2⟩, _⟩ := modelIdOf_spec hn hdig
    exact ⟨m, by rw [hmid]; exact hm1, hm2⟩
  · intro container strategy baseUrl domain urljoinF digest patterns p hdig
      hext hmpn
    obtain ⟨hn, hmid⟩ := hsingle container strategy baseUrl domain urljoinF
      digest patterns p hext
    obtain ⟨_, hpart2⟩ := modelIdOf_spec hn hdig
    obtain ⟨m, hm1, hm2, hm3⟩ := hpart2 hmpn
    exact ⟨m, by rw [hmid]; exact hm1, hm2, hm3⟩

/-- Witness for C10 on the sample page: the extracted record's model id
is the 12-character placeholder. -/
theorem extractor_model_id_contract_witness :
    ∃ m, sampleRecord.model_id = some m ∧ m ≠ "" :=
  extractor_model_id_contract.1 samplePage sampleStrategy
    "https://www.x.com/s" (fun a _ => a) sampleDigest []
    (fun _ => ⟨of_decide_eq_true rfl, rfl⟩) sampleRecord (by decide)

/-- Witness for C6 at concrete inputs. -/
theorem parse_price_contract_witness :
    parsePrice "free" = none
    ∧ parsePrice ⟨['1', '2'] ++ ',' :: ['9', '9']⟩ =
        some ((digitsVal ['1', '2'] : ℚ) + (digitsVal ['9', '9'] : ℚ) / 100)
    ∧ parsePrice ⟨['1'] ++ ',' :: ['2', '9', '9']⟩ =
        (if ['1'] ++ ['2', '9', '9'] = [] then none
         else some ((digitsVal (['1'] ++ ['2', '9', '9']) : ℚ))) := by
  obtain ⟨h1, _, _, _, _, h6⟩ := parse_price_contract
  exact ⟨h1 "free" (by decide),
    (h6 ['1', '2'] ['9', '9'] (by decide) (by decide)).1 rfl,
    (h6 ['1'] ['2', '9', '9'] (by decide) (by decide)).2 (by decide)⟩

end SmartShopping
